import Mathlib

/-!
Shallow embedding of the PicPuzzle grid model and its operations, translated
from the Python sources (`models.py`, `config.py`, `puzzle_exporter.py`,
`region_editor_window.py`, `state_manager.py`), together with theorems
settling the specification claims about them.

Conventions of the embedding:
* Python `int` is modelled as `Int`; Python floor division `//` as `Int.fdiv`.
* Mutating methods become pure functions returning the updated model
  (paired with the Python return value where the method returns one).
* `pathlib.Path` values are modelled as strings.
* The Python `GridCell` dataclass also stores its own `row`, `col` and a
  derived `id` string; no modelled operation reads them (they always equal
  the cell's indices), so they are omitted from the Lean structure.
-/

namespace PicPuzzle

/-- `models.ImageOrientation`: horizontal (landscape) or vertical (portrait). -/
inductive ImageOrientation where
  | horizontal
  | vertical
deriving DecidableEq, Repr

/-- `models.ImageInfo` dataclass: path, orientation and source pixel size.
Dataclass equality compares all four fields. -/
structure ImageInfo where
  path : String
  orientation : ImageOrientation
  width : Int
  height : Int
deriving DecidableEq, Repr

/-- `models.GridCell` dataclass (row/col/id fields omitted, see module header).
Field defaults are the dataclass defaults. -/
structure GridCell where
  image : Option ImageInfo := none
  is_occupied : Bool := false
  is_main_cell : Bool := true
  main_position : Option (Int × Int) := none
deriving DecidableEq, Repr

/-- A fresh, empty grid cell (the state `GridCell(row, col)` is created in,
and the state `remove_image` resets cells to). -/
def emptyCell : GridCell := {}

/-- `config.VERTICAL_IMAGE_SPAN`. -/
def VERTICAL_IMAGE_SPAN : Int := 3

/-- Python floor division `//` (floors towards negative infinity). -/
def pyFloorDiv (a b : Int) : Int := Int.fdiv a b

/-- `config.calculate_spacing`: `max(0, (cell_height*VERTICAL_IMAGE_SPAN - 3*cell_height) // 2)`.
This is the preview-context spacing function. -/
def configCalculateSpacing (cell_height : Int) : Int :=
  let vertical_height := cell_height * VERTICAL_IMAGE_SPAN
  let horizontal_height := cell_height
  max 0 (pyFloorDiv (vertical_height - 3 * horizontal_height) 2)

/-- `PuzzleExporter.calculate_spacing`: export-context spacing,
`max((cell_height * 256 // 81 - 3*cell_height) // 2, 1)`. -/
def exporterCalculateSpacing (cell_height : Int) : Int :=
  let vertical_height := pyFloorDiv (cell_height * 256) 81
  let spacing := pyFloorDiv (vertical_height - 3 * cell_height) 2
  max spacing 1

/-- The per-file orientation decision inside
`PuzzleModel.load_images_from_directory`: landscape iff `width > height`,
portrait iff `height > width`, square files are skipped. -/
def classifyOrientation (width height : Int) : Option ImageOrientation :=
  if width > height then some .horizontal
  else if height > width then some .vertical
  else none

/-- Modelled from the spec (§3 Data Model), for comparison with
`classifyOrientation`: the claimed load-time classification rule, "ratio
within tolerance ±0.1 of `num/den` ". -/
def specRatioWithinTol (width height num den : Int) : Prop :=
  |(width : ℚ) / (height : ℚ) - (num : ℚ) / (den : ℚ)| ≤ 1 / 10

/-- `models.PuzzleModel`: grid plus the two image pools. -/
structure PuzzleModel where
  rows : Int
  cols : Int
  grid : List (List GridCell)
  used_images : List ImageInfo
  unused_images : List ImageInfo
  image_directory : Option String
deriving DecidableEq, Repr

/-- `PuzzleModel._initialize_grid`: a `rows × cols` grid of fresh cells
(`range(n)` is empty for `n ≤ 0`, hence `toNat`). -/
def blankGrid (rows cols : Int) : List (List GridCell) :=
  (List.range rows.toNat).map fun _ => (List.range cols.toNat).map fun _ => emptyCell

/-- `PuzzleModel.__init__(rows, cols)`. -/
def PuzzleModel.init0 (rows cols : Int) : PuzzleModel :=
  { rows := rows
    cols := cols
    grid := blankGrid rows cols
    used_images := []
    unused_images := []
    image_directory := none }

/-- Direct cell read `self.grid[row][col]` (used by the Python code only
after the bounds checks, where a well-sized grid makes the `getD` defaults
unreachable). -/
def cellAt (m : PuzzleModel) (row col : Int) : GridCell :=
  (m.grid.getD row.toNat []).getD col.toNat emptyCell

/-- Write `self.grid[row][col] = cell` (no-op out of range, again only
reached in-range by the modelled code). -/
def setCellAt (g : List (List GridCell)) (row col : Int) (cell : GridCell) :
    List (List GridCell) :=
  g.set row.toNat ((g.getD row.toNat []).set col.toNat cell)

/-- `PuzzleModel.get_cell`: bounds-checked read returning `None` out of range. -/
def PuzzleModel.get_cell (m : PuzzleModel) (row col : Int) : Option GridCell :=
  if row < 0 ∨ row ≥ m.rows ∨ col < 0 ∨ col ≥ m.cols then none
  else some (cellAt m row col)

/-- `PuzzleModel.can_place_image`. -/
def PuzzleModel.can_place_image (m : PuzzleModel) (row col : Int) (image : ImageInfo) :
    Bool :=
  if row < 0 ∨ row ≥ m.rows ∨ col < 0 ∨ col ≥ m.cols then false
  else
    match image.orientation with
    | .horizontal => !(cellAt m row col).is_occupied
    | .vertical =>
        if row + 2 ≥ m.rows then false
        else (List.range 3).all fun i => !(cellAt m (row + i) col).is_occupied

/-- The cell contents `place_image` writes at offset `i` of a vertical span
anchored at `(row, col)` (`i = 0` is the main cell). -/
def verticalSpanCell (image : ImageInfo) (row col : Int) (i : Nat) : GridCell :=
  { image := some image
    is_occupied := true
    is_main_cell := i == 0
    main_position := if i == 0 then none else some (row, col) }

/-- `PuzzleModel.place_image`: returns the updated model and the Python
return value. -/
def PuzzleModel.place_image (m : PuzzleModel) (row col : Int) (image : ImageInfo) :
    PuzzleModel × Bool :=
  if ¬ m.can_place_image row col image then (m, false)
  else
    let g :=
      match image.orientation with
      | .horizontal =>
          setCellAt m.grid row col
            { image := some image
              is_occupied := true
              is_main_cell := true
              main_position := none }
      | .vertical =>
          (List.range 3).foldl
            (fun g (i : Nat) =>
              setCellAt g (row + (i : Int)) col (verticalSpanCell image row col i))
            m.grid
    let unused' :=
      if image ∈ m.unused_images then m.unused_images.erase image else m.unused_images
    let used' :=
      if image ∉ m.used_images then m.used_images ++ [image] else m.used_images
    ({ m with grid := g, unused_images := unused', used_images := used' }, true)

/-- `PuzzleModel.remove_image`: clears every cell of the whole grid whose
image equals the occupying image (the Python double loop over
`range(rows) × range(cols)` is the same cell-wise update as this `map` for a
well-sized grid), then moves the image back to the unused pool. -/
def PuzzleModel.remove_image (m : PuzzleModel) (row col : Int) :
    PuzzleModel × Option ImageInfo :=
  if row < 0 ∨ row ≥ m.rows ∨ col < 0 ∨ col ≥ m.cols then (m, none)
  else
    let cell := cellAt m row col
    if !cell.is_occupied then (m, none)
    else
      match cell.image with
      | none => (m, none)
      | some image =>
          let g := m.grid.map fun r =>
            r.map fun c => if c.image = some image then emptyCell else c
          let used' :=
            if image ∈ m.used_images then m.used_images.erase image else m.used_images
          let unused' :=
            if image ∉ m.unused_images then m.unused_images ++ [image]
            else m.unused_images
          ({ m with grid := g, used_images := used', unused_images := unused' },
           some image)

/-- `PuzzleModel.resize_grid`: collects the image of every main cell in
row-major order (the Python double `for` loop, as a fold), rebuilds the grid
empty, appends the collected images to `unused_images` and clears
`used_images`. -/
def PuzzleModel.resize_grid (m : PuzzleModel) (rows cols : Int) : PuzzleModel :=
  let current_images :=
    m.grid.foldl
      (fun acc r =>
        r.foldl
          (fun acc2 cell =>
            match cell.image, cell.is_main_cell with
            | some img, true => acc2 ++ [img]
            | _, _ => acc2)
          acc)
      []
  { rows := rows
    cols := cols
    grid := blankGrid rows cols
    used_images := []
    unused_images := m.unused_images ++ current_images
    image_directory := m.image_directory }

/-- Row-major list of the images of all main cells of a grid, written
independently of the fold inside `resize_grid` (used to state claim C10). -/
def mainCellImages (g : List (List GridCell)) : List ImageInfo :=
  g.flatMap fun r =>
    r.filterMap fun cell =>
      match cell.image, cell.is_main_cell with
      | some img, true => some img
      | _, _ => none

/-- `PuzzleModel.get_main_cell_position`: the main-cell coordinates a cell
position resolves to. -/
def PuzzleModel.get_main_cell_position (m : PuzzleModel) (row col : Int) : Int × Int :=
  match m.get_cell row col with
  | some cell =>
      match cell.main_position, cell.is_occupied with
      | some mp, true => mp
      | _, _ => (row, col)
  | none => (row, col)

/-! Region editor (`region_editor_window.py`).  The selected region is a
`QRect` stored as `(left, top, width, height)`; `QRect.bottom()` is
`top + height - 1` and a null `QRect` has width and height both `0`. -/

/-- The selected region rectangle (`QRect`). -/
structure Rect where
  left : Int
  top : Int
  width : Int
  height : Int
deriving DecidableEq, Repr

/-- `QRect.isNull()`. -/
def Rect.isNull (r : Rect) : Bool := r.width == 0 && r.height == 0

/-- `QRect.bottom()` (inclusive bottom edge, Qt convention). -/
def Rect.qbottom (r : Rect) : Int := r.top + r.height - 1

/-- Python `range(a, b)` as a list of `Int`. -/
def intRange (a b : Int) : List Int :=
  (List.range (b - a).toNat).map fun (i : Nat) => a + (i : Int)

/-- Row-major traversal of the cells of a region: the nested
`for row in range(start_row, end_row): for col in range(start_col, end_col)`
loops of the region editor. -/
def regionPositions (rect : Rect) : List (Int × Int) :=
  (intRange rect.top (rect.top + rect.height)).flatMap fun r =>
    (intRange rect.left (rect.left + rect.width)).map fun c => (r, c)

/-- One entry of `get_vertical_images_in_region`: the resolved main-cell
coordinates and the image (the Python dict also carries `start_row = row`,
`end_row = row + VERTICAL_IMAGE_SPAN` and the span's cell list, all derived
from these three fields). -/
structure VerticalImageEntry where
  row : Int
  col : Int
  image : ImageInfo
deriving DecidableEq, Repr

/-- `RegionEditorWindow.get_vertical_images_in_region`: scans the region
row-major for occupied vertical-image cells, resolves each to its main cell
and deduplicates by the key `(image.path, main_row, main_col)` (an entry is
appended exactly when its key is added to the `processed_images` set, so key
membership is membership of a matching entry in the accumulator). -/
def getVerticalImagesInRegion (m : PuzzleModel) (rect : Rect) :
    List VerticalImageEntry :=
  if rect.isNull then []
  else
    (regionPositions rect).foldl
      (fun acc p =>
        match m.get_cell p.1 p.2 with
        | some cell =>
            match cell.image with
            | some img =>
                if cell.is_occupied && (img.orientation == .vertical) then
                  let mp := m.get_main_cell_position p.1 p.2
                  if acc.any fun e =>
                      e.image.path == img.path && e.row == mp.1 && e.col == mp.2 then
                    acc
                  else acc ++ [⟨mp.1, mp.2, img⟩]
                else acc
            | none => acc
        | none => acc)
      []

/-- One step of the expansion fold in `_auto_expand_for_vertical_images`:
state is `(new_top, new_bottom, expansion_needed)`. -/
def expandStep (st : Int × Int × Bool) (e : VerticalImageEntry) : Int × Int × Bool :=
  let img_top := e.row
  let img_bottom := e.row + VERTICAL_IMAGE_SPAN
  let need_top := img_top < st.1
  let need_bottom := img_bottom > st.2.1
  (if need_top then min st.1 img_top else st.1,
   if need_bottom then max st.2.1 img_bottom else st.2.1,
   st.2.2 || need_top || need_bottom)

/-- `RegionEditorWindow._auto_expand_for_vertical_images` (silent mode), as
the function from the current selected rectangle to the resulting selected
rectangle (unchanged on every early-return path).  Note the initial bottom
bound is the inclusive `QRect.bottom()` while each image's `end_row` is
exclusive, exactly as in the source. -/
def autoExpand (m : PuzzleModel) (rect : Rect) : Rect :=
  if rect.isNull then rect
  else
    let vertical_images := getVerticalImagesInRegion m rect
    if vertical_images.isEmpty then rect
    else
      let st := vertical_images.foldl expandStep (rect.top, rect.qbottom, false)
      if !st.2.2 then rect
      else
        let new_top := max 0 st.1
        let new_bottom := min m.rows st.2.1
        { left := rect.left, top := new_top, width := rect.width,
          height := new_bottom - new_top }

/-- The four region-move buttons. -/
inductive MoveDir where
  | up
  | down
  | left
  | right
deriving DecidableEq, Repr

/-- The one-step displacement `(delta_row, delta_col)` of each direction. -/
def moveDelta : MoveDir → Int × Int
  | .up => (-1, 0)
  | .down => (1, 0)
  | .left => (0, -1)
  | .right => (0, 1)

/-- The per-image boundary test of `_move_up` / `_move_down` / `_move_left` /
`_move_right` (in `_move_up` both orientation branches test `new_row < 0`,
and `_move_left` / `_move_right` test only the column). -/
def destViolates (m : PuzzleModel) (d : MoveDir) (img : ImageInfo)
    (new_row new_col : Int) : Bool :=
  match d with
  | .up => new_row < 0
  | .down =>
      if img.orientation == .vertical then new_row + VERTICAL_IMAGE_SPAN > m.rows
      else new_row ≥ m.rows
  | .left => new_col < 0
  | .right => new_col ≥ m.cols

/-- The whole-region pre-check each move handler performs after expansion,
before scanning cells (`start_row == 0`, `start_col == 0`,
`end_col >= cols`; `_move_down` has none). -/
def movePrecheckFails (m : PuzzleModel) (rect : Rect) : MoveDir → Bool
  | .up => rect.top == 0
  | .down => false
  | .left => rect.left == 0
  | .right => rect.left + rect.width ≥ m.cols

/-- An element of `images_to_move`. -/
structure MoveItem where
  image : ImageInfo
  old_row : Int
  old_col : Int
  new_row : Int
  new_col : Int
deriving DecidableEq, Repr

/-- One iteration of the collection loop of the move handlers.  An occupied
main cell with no image would raise in Python when reading
`cell.image.orientation`; that state is unreachable through the model's
operations and is skipped here. -/
def collectStep (m : PuzzleModel) (d : MoveDir) (acc : Option (List MoveItem))
    (p : Int × Int) : Option (List MoveItem) :=
  match acc with
  | none => none
  | some items =>
      match m.get_cell p.1 p.2 with
      | some cell =>
          if cell.is_occupied && cell.is_main_cell then
            match cell.image with
            | some img =>
                let new_row := p.1 + (moveDelta d).1
                let new_col := p.2 + (moveDelta d).2
                if destViolates m d img new_row new_col then none
                else some (items ++ [⟨img, p.1, p.2, new_row, new_col⟩])
            | none => some items
          else some items
      | none => some items

/-- The collection loop of the move handlers: scan the (expanded) region
row-major; for every occupied main cell compute the destination, returning
failure (`none`, the Python early `return`) at the first out-of-bounds
destination. -/
def collectImagesToMove (m : PuzzleModel) (rect : Rect) (d : MoveDir) :
    Option (List MoveItem) :=
  (regionPositions rect).foldl (collectStep m d) (some [])

/-- The cell at `p` is an occupied main cell whose destination under `d` is
out of bounds. -/
def violatesAt (m : PuzzleModel) (d : MoveDir) (p : Int × Int) : Bool :=
  match m.get_cell p.1 p.2 with
  | some cell =>
      cell.is_occupied && cell.is_main_cell &&
        match cell.image with
        | some img =>
            destViolates m d img (p.1 + (moveDelta d).1) (p.2 + (moveDelta d).2)
        | none => false
  | none => false

/-- Whether some occupied main cell of the region has an out-of-bounds
destination under direction `d` (the condition on which the collection loop
rejects), stated independently of the loop. -/
def hasOutOfBoundsDest (m : PuzzleModel) (rect : Rect) (d : MoveDir) : Bool :=
  (regionPositions rect).any (violatesAt m d)

/-- The cells of one placement span anchored at `(r, c)` (3 vertical cells
for a portrait image, 1 cell for a landscape image), as iterated when
building `positions_to_clear`. -/
def spanPositions (img : ImageInfo) (r c : Int) : List (Int × Int) :=
  if img.orientation == .vertical then
    (intRange r (r + VERTICAL_IMAGE_SPAN)).map fun i => (i, c)
  else [(r, c)]

/-- `RegionEditorWindow._execute_region_move`.  `positions_to_clear` is a
Python `set` built by inserting all old spans then all new spans; its
iteration order is unspecified, modelled here as insertion order with
duplicates dropped (`dedup` keeps first occurrences).  The final grid does
not depend on that order; only the order of the rebuilt unused pool could. -/
def executeRegionMove (m : PuzzleModel) (items : List MoveItem) :
    PuzzleModel × Bool :=
  if items.isEmpty then (m, false)
  else
    let positions_to_clear :=
      ((items.flatMap fun it => spanPositions it.image it.old_row it.old_col) ++
        (items.flatMap fun it => spanPositions it.image it.new_row it.new_col)).dedup
    let m1 :=
      positions_to_clear.foldl
        (fun m p =>
          match m.get_cell p.1 p.2 with
          | some cell => if cell.is_occupied then (m.remove_image p.1 p.2).1 else m
          | none => m)
        m
    let st :=
      items.foldl
        (fun (st : PuzzleModel × Nat) it =>
          let r := st.1.place_image it.new_row it.new_col it.image
          (r.1, if r.2 then st.2 + 1 else st.2))
        (m1, 0)
    (st.1, decide (st.2 > 0))

/-- A move-button handler (`_move_up` etc.): reject a null selection, expand
the selection to whole portrait spans, run the direction's pre-check, collect
the images to move (rejecting on any out-of-bounds destination), and execute.
Returns the updated model and whether the move reported success. -/
def moveRegion (m : PuzzleModel) (rect : Rect) (d : MoveDir) : PuzzleModel × Bool :=
  if rect.isNull then (m, false)
  else
    let rect := autoExpand m rect
    if movePrecheckFails m rect d then (m, false)
    else
      match collectImagesToMove m rect d with
      | none => (m, false)
      | some [] => (m, false)
      | some items => executeRegionMove m items

/-! Exporter (`puzzle_exporter.py`). -/

/-- One step of the `get_valid_area` scan: update the running bounding box
`(min_row, max_row, min_col, max_col)` at position `p` if the cell there is
an occupied main cell, extending `max_row` to the bottom of a portrait span. -/
def validAreaStep (m : PuzzleModel) (acc : Option (Int × Int × Int × Int))
    (p : Int × Int) : Option (Int × Int × Int × Int) :=
  match m.get_cell p.1 p.2 with
  | some cell =>
      if cell.is_occupied && cell.is_main_cell then
        let base :=
          match acc with
          | none => (p.1, p.1, p.2, p.2)
          | some (a, b, c, d) => (min a p.1, max b p.1, min c p.2, max d p.2)
        let withSpan :=
          match cell.image with
          | some img =>
              if img.orientation == .vertical then
                (base.1, max base.2.1 (p.1 + VERTICAL_IMAGE_SPAN - 1), base.2.2)
              else base
          | none => base
        some withSpan
      else acc
  | none => acc

/-- Row-major traversal of the whole grid, `range(rows) × range(cols)`. -/
def gridPositions (rows cols : Int) : List (Int × Int) :=
  (intRange 0 rows).flatMap fun r => (intRange 0 cols).map fun c => (r, c)

/-- `PuzzleExporter.get_valid_area`: bounding box of the occupied main cells
(extended over portrait spans), `none` for an empty grid. -/
def getValidArea (m : PuzzleModel) : Option (Int × Int × Int × Int) :=
  (gridPositions m.rows m.cols).foldl (validAreaStep m) none

/-- The output canvas dimensions computed by
`PuzzleExporter.create_puzzle_image` (the geometry of the function; the
painting onto the canvas is not modelled).  `none` when `get_valid_area`
finds nothing (Python raises `ValueError` there). -/
def createPuzzleSize (m : PuzzleModel) (cell_width cell_height : Int)
    (custom_spacing : Option Int) : Option (Int × Int) :=
  match getValidArea m with
  | none => none
  | some (min_row, max_row, min_col, max_col) =>
      let valid_rows := max_row - min_row + 1
      let valid_cols := max_col - min_col + 1
      let spacing :=
        match custom_spacing with
        | some s => s
        | none => exporterCalculateSpacing cell_height
      let spacing := max spacing 0
      let total_width :=
        if valid_cols > 1 then cell_width * valid_cols + spacing * (valid_cols - 1)
        else cell_width * valid_cols
      let total_height :=
        if valid_rows > 1 then cell_height * valid_rows + spacing * (valid_rows - 1)
        else cell_height * valid_rows
      some (total_width, total_height)

/-! State manager (`state_manager.py`).  Persisted state documents are JSON
values; Python exception behaviour (`try/except` in `apply_state_to_model`
and `_deserialize_image`, attribute errors on wrong-typed values) is
modelled explicitly.  Paths are POSIX strings; `Path.is_absolute()` is
"starts with `/`". -/

/-- A JSON value (the result of `json.load`). -/
inductive JVal where
  | null
  | bool (b : Bool)
  | int (n : Int)
  | str (s : String)
  | arr (xs : List JVal)
  | obj (kvs : List (String × JVal))
deriving BEq, Repr

/-- Python truthiness of a JSON value. -/
def pyTruthy : JVal → Bool
  | .null => false
  | .bool b => b
  | .int n => n != 0
  | .str s => s != ""
  | .arr xs => !xs.isEmpty
  | .obj kvs => !kvs.isEmpty

/-- `dict.get(key)` on a JSON object (documents written by the serializer
have unique keys, so first-match lookup is the dictionary lookup). -/
def dictGet (kvs : List (String × JVal)) (key : String) : Option JVal :=
  (kvs.find? fun kv => kv.1 == key).map fun kv => kv.2

/-- The attributes module `config` actually defines (module level constants
of `config.py`).  The two float aspect-ratio constants and the
`calculate_spacing` function are also attributes but are never fetched by
the state manager and floats are outside this embedding, so they are
omitted; only lookups of the listed names can succeed either way. -/
def configAttrs : List (String × JVal) :=
  [("PREVIEW_CELL_WIDTH", .int 160),
   ("PREVIEW_CELL_HEIGHT", .int 90),
   ("GRID_OUTPUT_WIDTH", .int 1920),
   ("GRID_OUTPUT_HEIGHT", .int 1080),
   ("VERTICAL_IMAGE_SPAN", .int 3),
   ("DATA_DIR", .str "data"),
   ("STATE_FILE_EXTENSION", .str ".json"),
   ("DEFAULT_GRID_ROWS", .int 13),
   ("DEFAULT_GRID_COLS", .int 10),
   ("SUPPORTED_IMAGE_FORMATS",
    .arr [.str ".jpg", .str ".jpeg", .str ".png", .str ".bmp", .str ".tiff",
          .str ".tif"])]

/-- `getattr(config, name)`: the value, or an `AttributeError` naming the
missing attribute. -/
def pyGetAttrConfig (name : String) : Except String JVal :=
  match dictGet configAttrs name with
  | some v => .ok v
  | none => .error name

/-- `StateManager._serialize_image`: relative path when the image directory
is a path prefix (`Path.relative_to` succeeds), absolute otherwise. -/
def serializeImage (img : ImageInfo) (image_directory : Option String) : JVal :=
  let path_str :=
    match image_directory with
    | some dir =>
        if img.path.startsWith (dir ++ "/") then img.path.drop (dir.length + 1)
        else img.path
    | none => img.path
  .obj
    [("path", .str path_str),
     ("orientation",
      .str (match img.orientation with
            | .horizontal => "horizontal"
            | .vertical => "vertical")),
     ("width", .int img.width),
     ("height", .int img.height)]

/-- The `grid_layout` array built by `save_state`: one entry per cell,
`null` except at main cells holding an image. -/
def serializeLayout (m : PuzzleModel) : JVal :=
  .arr ((intRange 0 m.rows).map fun row =>
    .arr ((intRange 0 m.cols).map fun col =>
      match m.get_cell row col with
      | some cell =>
          match cell.image, cell.is_main_cell with
          | some img, true =>
              .obj
                [("row", .int row), ("col", .int col),
                 ("image", serializeImage img m.image_directory),
                 ("is_main_cell", .bool true)]
          | _, _ => .null
      | none => .null))

/-- The state document `StateManager.save_state` builds (before writing it
to disk), with the wall-clock timestamp as a parameter.  The `grid_config`
sub-dictionary fetches six attributes from `config`; an `AttributeError` is
returned as `Except.error` with the missing attribute's name. -/
def saveStateData (m : PuzzleModel) (timestamp : String) : Except String JVal := do
  let pw ← pyGetAttrConfig "GRID_PREVIEW_WIDTH"
  let ph ← pyGetAttrConfig "GRID_PREVIEW_HEIGHT"
  let ow ← pyGetAttrConfig "GRID_OUTPUT_WIDTH"
  let oh ← pyGetAttrConfig "GRID_OUTPUT_HEIGHT"
  let sp ← pyGetAttrConfig "GRID_SPACING"
  let osp ← pyGetAttrConfig "OUTPUT_SPACING"
  pure (.obj
    [("version", .str "1.0"),
     ("timestamp", .str timestamp),
     ("image_directory",
      match m.image_directory with
      | some d => .str d
      | none => .null),
     ("grid_config",
      .obj [("rows", .int m.rows), ("cols", .int m.cols),
            ("preview_width", pw), ("preview_height", ph),
            ("output_width", ow), ("output_height", oh),
            ("spacing", sp), ("output_spacing", osp)]),
     ("images",
      .obj [("unused",
             .arr (m.unused_images.map fun i => serializeImage i m.image_directory)),
            ("used",
             .arr (m.used_images.map fun i => serializeImage i m.image_directory))]),
     ("grid_layout", serializeLayout m)])

/-- `StateManager._deserialize_image` over a JSON value.  Result:
`some (some img)` — parsed; `some none` — an exception was raised and
caught inside the helper (returns `None`, entry skipped); `none` — the
document shape is outside the modelled fragment (a present `width` /
`height` that is not an integer is stored untyped by Python). -/
def deserializeImage (image_data : JVal) (image_directory : Option String) :
    Option (Option ImageInfo) :=
  match image_data with
  | .obj kvs =>
      match dictGet kvs "path" with
      | some (.str path_str) =>
          let path :=
            match image_directory with
            | some dir =>
                if !path_str.startsWith "/" then dir ++ "/" ++ path_str else path_str
            | none => path_str
          match dictGet kvs "orientation" with
          | some (.str o) =>
              let orient : Option ImageOrientation :=
                if o == "horizontal" then some .horizontal
                else if o == "vertical" then some .vertical
                else none
              match orient with
              | none => some none
              | some orientation =>
                  match dictGet kvs "width", dictGet kvs "height" with
                  | some (.int w), some (.int h) =>
                      some (some ⟨path, orientation, w, h⟩)
                  | some (.int _), none => some none
                  | none, _ => some none
                  | _, _ => none
          | some _ => some none
          | none => some none
      | some _ => some none
      | none => some none
  | _ => some none

/-- The `unused` / `used` loading loops of `apply_state_to_model`: parse
each entry, keep those whose file still exists; `none` when an entry is
outside the modelled fragment. -/
def loadImageList (xs : List JVal) (image_directory : Option String)
    (fileExists : String → Bool) : Option (List ImageInfo) :=
  xs.foldl
    (fun acc x =>
      match acc with
      | none => none
      | some l =>
          match deserializeImage x image_directory with
          | none => none
          | some none => some l
          | some (some img) =>
              if fileExists img.path then some (l ++ [img]) else some l)
    (some [])

/-- Intermediate result of a stage of `apply_state_to_model`:
continue, exception caught with the model in its current state, or outside
the modelled fragment. -/
inductive ApplyStage (α : Type) where
  | cont (val : α)
  | fail (m : PuzzleModel)
  | outside

/-- The inner cell loop of the `grid_layout` replay (`enumerate(grid_row)`
with `continue` on out-of-column or falsy entries; a truthy non-dict entry
raises `AttributeError`, caught by the outer handler). -/
def applyLayoutCells (m : PuzzleModel) (cells : List JVal) (row_idx col_idx : Nat)
    (image_directory : Option String) (fileExists : String → Bool) :
    ApplyStage PuzzleModel :=
  match cells with
  | [] => .cont m
  | cd :: rest =>
      if (col_idx : Int) ≥ m.cols then
        applyLayoutCells m rest row_idx (col_idx + 1) image_directory fileExists
      else if !pyTruthy cd then
        applyLayoutCells m rest row_idx (col_idx + 1) image_directory fileExists
      else
        match cd with
        | .obj ckvs =>
            let image_data := (dictGet ckvs "image").getD .null
            if pyTruthy image_data then
              match deserializeImage image_data image_directory with
              | none => .outside
              | some none =>
                  applyLayoutCells m rest row_idx (col_idx + 1) image_directory
                    fileExists
              | some (some img) =>
                  if fileExists img.path then
                    let used' :=
                      if img ∉ m.used_images then m.used_images ++ [img]
                      else m.used_images
                    let unused' :=
                      if img ∈ m.unused_images then m.unused_images.erase img
                      else m.unused_images
                    let m' :=
                      { m with used_images := used', unused_images := unused' }
                    let m'' := (m'.place_image (row_idx : Int) (col_idx : Int) img).1
                    applyLayoutCells m'' rest row_idx (col_idx + 1) image_directory
                      fileExists
                  else
                    applyLayoutCells m rest row_idx (col_idx + 1) image_directory
                      fileExists
            else
              applyLayoutCells m rest row_idx (col_idx + 1) image_directory fileExists
        | _ => .fail m
  termination_by cells

/-- The outer row loop of the `grid_layout` replay (`break` once `row_idx`
reaches the model's row count; a non-array row is outside the fragment). -/
def applyLayoutRows (m : PuzzleModel) (rows : List JVal) (row_idx : Nat)
    (image_directory : Option String) (fileExists : String → Bool) :
    ApplyStage PuzzleModel :=
  match rows with
  | [] => .cont m
  | gr :: rest =>
      if (row_idx : Int) ≥ m.rows then .cont m
      else
        match gr with
        | .arr cells =>
            match applyLayoutCells m cells row_idx 0 image_directory fileExists with
            | .cont m' =>
                applyLayoutRows m' rest (row_idx + 1) image_directory fileExists
            | r => r
        | _ => .outside
  termination_by rows

/-- `Path(s) if image_directory_str else None` followed by the conditional
assignment: falsy values give no directory, `Path` of a truthy non-string
raises `TypeError` (caught by the outer handler with the model resized). -/
def parseImageDirectory (m : PuzzleModel) : JVal → ApplyStage (Option String)
  | .null => .cont none
  | .str s => .cont (if s == "" then none else some s)
  | .bool b => if b then .fail m else .cont none
  | .int n => if n ≠ 0 then .fail m else .cont none
  | .arr xs => if !xs.isEmpty then .fail m else .cont none
  | .obj kvs => if !kvs.isEmpty then .fail m else .cont none

/-- A `rows` / `cols` entry of `grid_config`: absent uses the default,
an integer is used as-is, any other present value is outside the fragment
(Python would hand the raw value to `resize_grid`). -/
def gridConfigInt (v : Option JVal) (dflt : Int) : Option Int :=
  match v with
  | none => some dflt
  | some (.int n) => some n
  | some _ => none

/-- `StateManager.apply_state_to_model`.  Returns `some (b, m')` for the
Python return value `b` and final model state `m'` (the whole body runs in
a `try/except` returning `False` on any exception, with whatever partial
mutations already happened), or `none` for documents outside the modelled
fragment (see `gridConfigInt`, `deserializeImage`, `applyLayoutRows`). -/
def applyStateToModel (m : PuzzleModel) (state_data : JVal)
    (fileExists : String → Bool) : Option (Bool × PuzzleModel) :=
  match state_data with
  | .obj kvs =>
      match (dictGet kvs "grid_config").getD (.obj []) with
      | .obj gkvs =>
          match gridConfigInt (dictGet gkvs "rows") 13,
              gridConfigInt (dictGet gkvs "cols") 10 with
          | some rows, some cols =>
              let m1 := m.resize_grid rows cols
              match parseImageDirectory m1 ((dictGet kvs "image_directory").getD .null) with
              | .outside => none
              | .fail mf => some (false, mf)
              | .cont dir =>
                  let m2 :=
                    match dir with
                    | some d => { m1 with image_directory := some d }
                    | none => m1
                  let images_data := (dictGet kvs "images").getD (.obj [])
                  let m3 := { m2 with unused_images := [], used_images := [] }
                  match images_data with
                  | .obj ikvs =>
                      let unusedStage : ApplyStage (List JVal) :=
                        match (dictGet ikvs "unused").getD (.arr []) with
                        | .arr xs => .cont xs
                        | .str _ => .cont []
                        | .obj _ => .cont []
                        | _ => .fail m3
                      match unusedStage with
                      | .outside => none
                      | .fail mf => some (false, mf)
                      | .cont uxs =>
                          match loadImageList uxs dir fileExists with
                          | none => none
                          | some unused_loaded =>
                              let m4 := { m3 with unused_images := unused_loaded }
                              let usedStage : ApplyStage (List JVal) :=
                                match (dictGet ikvs "used").getD (.arr []) with
                                | .arr xs => .cont xs
                                | .str _ => .cont []
                                | .obj _ => .cont []
                                | _ => .fail m4
                              match usedStage with
                              | .outside => none
                              | .fail mf => some (false, mf)
                              | .cont sxs =>
                                  match loadImageList sxs dir fileExists with
                                  | none => none
                                  | some used_loaded =>
                                      let m5 :=
                                        { m4 with used_images := used_loaded }
                                      match (dictGet kvs "grid_layout").getD (.arr []) with
                                      | .arr layoutRows =>
                                          match applyLayoutRows m5 layoutRows 0 dir
                                              fileExists with
                                          | .cont m6 => some (true, m6)
                                          | .fail mf => some (false, mf)
                                          | .outside => none
                                      | _ => none
                  | _ => some (false, m3)
          | _, _ => none
      | _ => some (false, m)
  | _ => some (false, m)

/-! Operation sequences over the model, and a well-formedness predicate for
reachable model states. -/

/-- One mutating grid-model operation (the three operations of claim C5). -/
inductive ModelOp where
  | place (row col : Int) (image : ImageInfo)
  | remove (row col : Int)
  | resize (rows cols : Int)
deriving DecidableEq, Repr

/-- Apply one operation (dropping the returned value). -/
def applyOp (m : PuzzleModel) : ModelOp → PuzzleModel
  | .place row col img => (m.place_image row col img).1
  | .remove row col => (m.remove_image row col).1
  | .resize rows cols => m.resize_grid rows cols

/-- Apply a sequence of operations left to right. -/
def applyOps (m : PuzzleModel) (ops : List ModelOp) : PuzzleModel :=
  ops.foldl applyOp m

/-- The side condition of amended claim C5: a `place` only places an image
that is not currently in the used pool (which is how every caller in the
application invokes `place_image`). -/
def opAllowed (m : PuzzleModel) : ModelOp → Bool
  | .place _ _ img => decide (img ∉ m.used_images)
  | _ => true

/-- `opAllowed` holding at every step along the execution of a sequence. -/
def opsAllowed : PuzzleModel → List ModelOp → Bool
  | _, [] => true
  | m, op :: rest => opAllowed m op && opsAllowed (applyOp m op) rest

/-- Cell of a raw grid at natural-number indices (defaults out of range). -/
def getCell2 (g : List (List GridCell)) (r c : Nat) : GridCell :=
  (g.getD r []).getD c emptyCell

/-- The cell state of a non-anchor cell of a vertical span anchored at the
natural position `(ar, ac)` (what `place_image` writes there). -/
def vertSubCell (img : ImageInfo) (ar ac : Nat) : GridCell :=
  { image := some img
    is_occupied := true
    is_main_cell := false
    main_position := some ((ar : Int), (ac : Int)) }

/-- The cell state of an occupied main cell (what `place_image` writes at
the anchor, for either orientation). -/
def mainCellVal (img : ImageInfo) : GridCell :=
  { image := some img
    is_occupied := true
    is_main_cell := true
    main_position := none }

/-- `(r, c)` is a main cell holding `img`. -/
def isMainCellAt (g : List (List GridCell)) (r c : Nat) (img : ImageInfo) : Prop :=
  (getCell2 g r c).image = some img ∧ (getCell2 g r c).is_main_cell = true

/-- The grid list matches the declared dimensions. -/
def gridSized (m : PuzzleModel) : Prop :=
  m.grid.length = m.rows.toNat ∧
    ∀ r < m.rows.toNat, (m.grid.getD r []).length = m.cols.toNat

/-- `is_occupied` agrees with the presence of an image, at every cell. -/
def occupancyWF (m : PuzzleModel) : Prop :=
  ∀ r < m.rows.toNat, ∀ c < m.cols.toNat,
    (getCell2 m.grid r c).is_occupied = (getCell2 m.grid r c).image.isSome

/-- Some cell of the grid holds `img`. -/
def hasImageCell (m : PuzzleModel) (img : ImageInfo) : Prop :=
  ∃ r < m.rows.toNat, ∃ c < m.cols.toNat, (getCell2 m.grid r c).image = some img

/-- Span correctness of a single cell holding `img` in a grid with `R` rows:
landscape cells are standalone main cells; a vertical main cell anchors a
full in-bounds 3-cell span; a vertical non-anchor cell sits 1 or 2 rows
below its anchor. -/
def cellSpanOk (g : List (List GridCell)) (R r c : Nat) (img : ImageInfo) : Prop :=
  (img.orientation = .horizontal →
    getCell2 g r c = mainCellVal img) ∧
  (img.orientation = .vertical → (getCell2 g r c).is_main_cell = true →
    getCell2 g r c = mainCellVal img ∧ r + 3 ≤ R ∧
      getCell2 g (r + 1) c = vertSubCell img r c ∧
      getCell2 g (r + 2) c = vertSubCell img r c) ∧
  (img.orientation = .vertical → (getCell2 g r c).is_main_cell = false →
    ((1 ≤ r ∧ getCell2 g r c = vertSubCell img (r - 1) c ∧
        isMainCellAt g (r - 1) c img) ∨
      (2 ≤ r ∧ getCell2 g r c = vertSubCell img (r - 2) c ∧
        isMainCellAt g (r - 2) c img)))

/-- Every occupied cell's span is structurally correct. -/
def spanWF (m : PuzzleModel) : Prop :=
  ∀ r < m.rows.toNat, ∀ c < m.cols.toNat,
    ∀ img ∈ (getCell2 m.grid r c).image.toList,
      cellSpanOk m.grid m.rows.toNat r c img

/-- At most one main cell holds `img` when comparing positions `(r, c)` and
`(r', c')`. -/
def mainUniqueAt (g : List (List GridCell)) (r c r' c' : Nat) : Prop :=
  ∀ img ∈ (getCell2 g r c).image.toList,
    (getCell2 g r c).is_main_cell = true →
    (getCell2 g r' c').image = some img →
    (getCell2 g r' c').is_main_cell = true →
    r = r' ∧ c = c'

/-- No two distinct main cells hold the same image. -/
def uniqueMainWF (m : PuzzleModel) : Prop :=
  ∀ r < m.rows.toNat, ∀ c < m.cols.toNat, ∀ r' < m.rows.toNat, ∀ c' < m.cols.toNat,
    mainUniqueAt m.grid r c r' c'

/-- The pool facts claim C5 asserts: the two pools are disjoint, and an
image is in `used_images` exactly when some grid cell holds it. -/
def poolInvariant (m : PuzzleModel) : Prop :=
  (∀ img ∈ m.unused_images, img ∉ m.used_images) ∧
  (∀ img ∈ m.used_images, hasImageCell m img) ∧
  (∀ r < m.rows.toNat, ∀ c < m.cols.toNat,
    ∀ img ∈ (getCell2 m.grid r c).image.toList, img ∈ m.used_images)

/-- Well-formedness of a model state: sized grid, occupancy coherence,
duplicate-free pools, the pool facts, correct spans and unique main cells.
Holds for `PuzzleModel.init0` and is preserved by the operations (with the
`opAllowed` restriction on `place_image`). -/
def WF (m : PuzzleModel) : Prop :=
  gridSized m ∧ occupancyWF m ∧ m.unused_images.Nodup ∧ m.used_images.Nodup ∧
    poolInvariant m ∧ spanWF m ∧ uniqueMainWF m

instance (w h num den : Int) : Decidable (specRatioWithinTol w h num den) := by
  unfold specRatioWithinTol; infer_instance

instance (g : List (List GridCell)) (r c : Nat) (img : ImageInfo) :
    Decidable (isMainCellAt g r c img) := by
  unfold isMainCellAt; infer_instance

instance (m : PuzzleModel) : Decidable (gridSized m) := by
  unfold gridSized; infer_instance

instance (m : PuzzleModel) : Decidable (occupancyWF m) := by
  unfold occupancyWF; infer_instance

instance (m : PuzzleModel) (img : ImageInfo) : Decidable (hasImageCell m img) := by
  unfold hasImageCell; infer_instance

instance (g : List (List GridCell)) (R r c : Nat) (img : ImageInfo) :
    Decidable (cellSpanOk g R r c img) := by
  unfold cellSpanOk; infer_instance

instance (m : PuzzleModel) : Decidable (spanWF m) := by
  unfold spanWF; infer_instance

instance (g : List (List GridCell)) (r c r' c' : Nat) :
    Decidable (mainUniqueAt g r c r' c') := by
  unfold mainUniqueAt; infer_instance

instance (m : PuzzleModel) : Decidable (uniqueMainWF m) := by
  unfold uniqueMainWF; infer_instance

instance (m : PuzzleModel) : Decidable (poolInvariant m) := by
  unfold poolInvariant; infer_instance

instance (m : PuzzleModel) : Decidable (WF m) := by
  unfold WF; infer_instance

/-- The per-cell selector of the `resize_grid` collection loop: the image of
a main cell, `none` for every other cell. -/
def mainCellSel (cell : GridCell) : Option ImageInfo :=
  match cell.image, cell.is_main_cell with
  | some img, true => some img
  | _, _ => none

/-- The part of `WF` that the amended claim C5 shows stable under every
allowed operation sequence: everything except the per-span cell structure
(`spanWF`), which the pool facts do not need. -/
def WFcore (m : PuzzleModel) : Prop :=
  gridSized m ∧ occupancyWF m ∧ m.unused_images.Nodup ∧ m.used_images.Nodup ∧
    poolInvariant m ∧ uniqueMainWF m

instance (m : PuzzleModel) : Decidable (WFcore m) := by
  unfold WFcore; infer_instance

/-! Concrete inputs used by the counterexamples and witnesses. -/

/-- A landscape test image. -/
def imgL : ImageInfo := ⟨"a.jpg", .horizontal, 1920, 1080⟩

/-- A second landscape test image. -/
def imgL2 : ImageInfo := ⟨"b.jpg", .horizontal, 1920, 1080⟩

/-- A portrait test image. -/
def imgP : ImageInfo := ⟨"p.jpg", .vertical, 1080, 1920⟩

/-- A second portrait test image. -/
def imgP2 : ImageInfo := ⟨"q.jpg", .vertical, 1080, 1920⟩

/-- The state document of counterexample C6: well-typed `grid_config`,
wrong-typed `images` (an integer where an object is required). -/
def badImagesDoc (rows cols : Int) : JVal :=
  .obj [("grid_config", .obj [("rows", .int rows), ("cols", .int cols)]),
        ("images", .int 5)]

/-- A 1×2 grid with one landscape image available (start state of
counterexample C5). -/
def exStateC5 : PuzzleModel := { PuzzleModel.init0 1 2 with unused_images := [imgL] }

/-- The operation sequence of counterexample C5: place the same landscape
image in both cells, resize (which moves two copies of it into the unused
pool), then place it again. -/
def opsC5 : List ModelOp :=
  [.place 0 0 imgL, .place 0 1 imgL, .resize 1 2, .place 0 0 imgL]

/-- A 1×1 grid with `imgL` placed at `(0,0)` (start state of
counterexample C6). -/
def exStateC6 : PuzzleModel :=
  (({ PuzzleModel.init0 1 1 with unused_images := [imgL] }).place_image 0 0 imgL).1

/-- A 7×2 grid with portrait images anchored at `(2,0)` and `(4,1)`
(counterexample C7). -/
def exStateC7 : PuzzleModel :=
  ((({ PuzzleModel.init0 7 2 with unused_images := [imgP, imgP2] }).place_image
      2 0 imgP).1.place_image 4 1 imgP2).1

/-- An allowed operation sequence on `exStateC5` (witness data for C5's
amended preservation claim): place the image, remove it, then resize. -/
def opsC5W : List ModelOp :=
  [.place 0 0 imgL, .remove 0 0, .resize 2 2]

/-- The initial selection of counterexample C7: the single row 2 across both
columns. -/
def rectC7 : Rect := { left := 0, top := 2, width := 2, height := 1 }

/-- A 3×1 grid whose only content is a portrait image spanning the whole
column (witness data for C4: moving down is out of bounds). -/
def exStateC4 : PuzzleModel :=
  (({ PuzzleModel.init0 3 1 with unused_images := [imgP] }).place_image 0 0 imgP).1

/-- The full-grid selection of that 3×1 grid (witness data for C7's amended
idempotence claim: expanding this selection reaches a fixed point at once). -/
def rectC7W : Rect := { left := 0, top := 0, width := 1, height := 3 }

/-- A 13×10 grid with a single portrait image anchored at `(3,2)` (witness
data for C8 and C1). -/
def exStateC8 : PuzzleModel :=
  (({ PuzzleModel.init0 13 10 with unused_images := [imgP] }).place_image 3 2 imgP).1

/-- A 13×10 empty grid with a portrait image available (witness data for
C1, scenario C of the spec). -/
def exStateC1 : PuzzleModel :=
  { PuzzleModel.init0 13 10 with unused_images := [imgP] }

/-! ## Theorems -/

/-- C2 counterexample: at `cellHeight = 81` the exact portrait height
`81 × 256/81 = 256` is an integer, yet the preview spacing function returns
`0` and `3×81 + 2×0 = 243`, off by 13 — far outside integer-rounding
tolerance.  (`config.calculate_spacing` computes
`(3·cellHeight − 3·cellHeight)//2`, which is identically 0.) -/
theorem c2_counterexample :
    configCalculateSpacing 81 = 0 ∧
      3 * 81 + 2 * configCalculateSpacing 81 = 243 ∧
      pyFloorDiv (81 * 256) 81 = 256 := by
  decide

/-- C2 (amended): for every `cellHeight > 0` the export spacing
(`PuzzleExporter.calculate_spacing`) is at least 1 and satisfies
`3×cellHeight + 2×spacing ≈ cellHeight × 256/81` within 2 units
(`|81×(3h + 2s) − 256×h| < 162`); the preview spacing function
(`config.calculate_spacing`) always returns 0, so it is nonnegative but
does not satisfy the 256/81 relation. -/
theorem c2_spacing (h : Int) (hpos : 0 < h) :
    1 ≤ exporterCalculateSpacing h ∧
      |81 * (3 * h + 2 * exporterCalculateSpacing h) - 256 * h| < 162 ∧
      configCalculateSpacing h = 0 := by
  have hconfig : configCalculateSpacing h = 0 := by
    show max 0 (pyFloorDiv (h * VERTICAL_IMAGE_SPAN - 3 * h) 2) = 0
    have hz : h * VERTICAL_IMAGE_SPAN - 3 * h = 0 := by
      show h * 3 - 3 * h = 0
      ring
    rw [hz]
    rfl
  have hexp : exporterCalculateSpacing h = max ((h * 256 / 81 - 3 * h) / 2) 1 := by
    show max (((h * 256).fdiv 81 - 3 * h).fdiv 2) 1 = max ((h * 256 / 81 - 3 * h) / 2) 1
    rw [Int.fdiv_eq_ediv _ (by norm_num), Int.fdiv_eq_ediv _ (by norm_num)]
  refine ⟨le_max_right _ _, ?_, hconfig⟩
  rw [hexp]
  rcases max_cases ((h * 256 / 81 - 3 * h) / 2) 1 with ⟨heq, hle⟩ | ⟨heq, hlt⟩ <;>
    rw [heq, abs_lt] <;> constructor <;> omega

/-- C2 witness: the amended statement evaluated at `cellHeight = 90`
(the preview cell height). -/
theorem c2_spacing_witness :
    1 ≤ exporterCalculateSpacing 90 ∧
      |81 * (3 * 90 + 2 * exporterCalculateSpacing 90) - 256 * 90| < 162 ∧
      configCalculateSpacing 90 = 0 :=
  c2_spacing 90 (by norm_num)

/-- C9 counterexample: a 100×99 image is classified Landscape by the code,
although its aspect ratio 100/99 ≈ 1.01 is not within ±0.1 of 16/9 (nor of
9/16), so the claim's rule would reject it. -/
theorem c9_counterexample :
    classifyOrientation 100 99 = some .horizontal ∧
      ¬ specRatioWithinTol 100 99 16 9 ∧ ¬ specRatioWithinTol 100 99 9 16 := by
  refine ⟨by decide, ?_, ?_⟩ <;>
    · simp only [specRatioWithinTol, abs_le, not_and_or, not_le]
      norm_num

/-- C9 (amended): the load-time classification is by direct width/height
comparison — Landscape iff `width > height`, Portrait iff
`height > width`, and the file is skipped iff `width = height`; no aspect
ratio tolerance is involved. -/
theorem c9_classify (w h : Int) :
    (classifyOrientation w h = some .horizontal ↔ h < w) ∧
      (classifyOrientation w h = some .vertical ↔ w < h) ∧
      (classifyOrientation w h = none ↔ w = h) := by
  unfold classifyOrientation
  split_ifs with h1 h2 <;> simp_all <;> omega

/-- C3 (code bug): `StateManager.save_state` fetches
`config.GRID_PREVIEW_WIDTH` while building the `grid_config` section, but
`config.py` defines no such attribute, so every call raises
`AttributeError` before anything is written — serialization never succeeds,
for any model whatsoever. -/
theorem c3_save_state_raises (m : PuzzleModel) (timestamp : String) :
    saveStateData m timestamp = .error "GRID_PREVIEW_WIDTH" := rfl

/-- C6 counterexample: applying the wrong-typed document
`{"grid_config": {"rows": 2, "cols": 2}, "images": 5}` to a 1×1 model with
one placed image returns `False` (as the claim says) but leaves the model
modified — resized to 2×2 with both pools cleared — not unmodified. -/
theorem c6_counterexample :
    (applyStateToModel exStateC6 (badImagesDoc 2 2) (fun _ => false)).map Prod.fst =
        some false ∧
      (applyStateToModel exStateC6 (badImagesDoc 2 2) (fun _ => false)).map Prod.snd ≠
        some exStateC6 := by
  constructor
  · rfl
  · decide

/-- C6 (amended): a wrong-typed `images` field is surfaced as `False`
without raising, but by then the model has been resized and both pools
cleared — it is left partially modified, not unmodified.  A document that
merely misses required keys is not rejected at all: defaults are applied,
the model is reset, and `True` is returned. -/
theorem c6_malformed_state (m : PuzzleModel) (rows cols : Int)
    (fileExists : String → Bool) :
    applyStateToModel m (badImagesDoc rows cols) fileExists =
        some (false,
          { m.resize_grid rows cols with unused_images := [], used_images := [] }) ∧
      applyStateToModel m (.obj []) fileExists =
        some (true,
          { m.resize_grid 13 10 with unused_images := [], used_images := [] }) := by
  refine ⟨rfl, ?_⟩
  simp only [applyStateToModel, dictGet, List.find?, Option.map, Option.getD,
    gridConfigInt, parseImageDirectory, loadImageList, List.foldl, applyLayoutRows]

/-- C5 counterexample: from a well-formed 1×2 start state (pools disjoint,
`used` = placed images), the sequence "place `imgL` twice, resize, place it
again" — using only `place_image`, `remove_image`, `resize_grid` — ends
with `imgL` in *both* pools, violating the claimed invariant. -/
theorem c5_counterexample :
    WF exStateC5 ∧ poolInvariant exStateC5 ∧
      imgL ∈ (applyOps exStateC5 opsC5).unused_images ∧
      imgL ∈ (applyOps exStateC5 opsC5).used_images := by
  decide

/-- C7 counterexample: in `exStateC7`, expanding the single-row selection
`rectC7` once grows it to rows 2–4 (3 rows); the added rows now touch the
portrait image anchored at `(4,1)`, so expanding a second time grows it
further to rows 2–6 (5 rows) — the expansion is not idempotent. -/
theorem c7_counterexample :
    autoExpand exStateC7 rectC7 = { left := 0, top := 2, width := 2, height := 3 } ∧
      autoExpand exStateC7 (autoExpand exStateC7 rectC7) =
        { left := 0, top := 2, width := 2, height := 5 } ∧
      autoExpand exStateC7 (autoExpand exStateC7 rectC7) ≠
        autoExpand exStateC7 rectC7 := by
  decide

/-- The inner fold of `resize_grid` over one grid row appends exactly the
row's main-cell images. -/
theorem foldl_mainImages_row (r : List GridCell) (acc : List ImageInfo) :
    r.foldl
      (fun acc2 cell =>
        match cell.image, cell.is_main_cell with
        | some img, true => acc2 ++ [img]
        | _, _ => acc2) acc =
      acc ++ r.filterMap fun cell =>
        match cell.image, cell.is_main_cell with
        | some img, true => some img
        | _, _ => none := by
  induction r generalizing acc with
  | nil => simp
  | cons hd tl ih =>
      rw [List.foldl_cons, List.filterMap_cons]
      cases himg : hd.image <;> cases hmain : hd.is_main_cell <;>
        simp [himg, hmain, ih]

/-- The double fold of `resize_grid` collects exactly the row-major
main-cell images of the grid. -/
theorem foldl_mainImages (g : List (List GridCell)) (acc : List ImageInfo) :
    g.foldl
      (fun acc r =>
        r.foldl
          (fun acc2 cell =>
            match cell.image, cell.is_main_cell with
            | some img, true => acc2 ++ [img]
            | _, _ => acc2) acc) acc =
      acc ++ mainCellImages g := by
  induction g generalizing acc with
  | nil => simp [mainCellImages]
  | cons hd tl ih =>
      rw [List.foldl_cons, foldl_mainImages_row, ih]
      simp [mainCellImages]

/-- C10: `resize_grid` rebuilds an empty grid of the new size, keeps the
pre-existing `unused_images` entries unchanged and in order, appends the
previously placed images (one per main cell, in row-major scan order) after
them, clears `used_images`, and leaves `image_directory` unchanged — no
image is dropped. -/
theorem c10_resize_grid (m : PuzzleModel) (rows cols : Int) :
    m.resize_grid rows cols =
      { rows := rows
        cols := cols
        grid := blankGrid rows cols
        used_images := []
        unused_images := m.unused_images ++ mainCellImages m.grid
        image_directory := m.image_directory } := by
  unfold PuzzleModel.resize_grid
  rw [foldl_mainImages]
  simp

/-- A fold whose step maps `none` to `none` stays `none`. -/
theorem foldl_none_absorb {α β : Type} (f : Option α → β → Option α)
    (hf : ∀ b, f none b = none) (l : List β) : l.foldl f none = none := by
  induction l with
  | nil => rfl
  | cons hd tl ih => rw [List.foldl_cons, hf]; exact ih

/-- One collection step fails exactly on an occupied main cell with an
out-of-bounds destination. -/
theorem collectStep_none_iff (m : PuzzleModel) (d : MoveDir) (items : List MoveItem)
    (p : Int × Int) :
    collectStep m d (some items) p = none ↔ violatesAt m d p = true := by
  unfold collectStep violatesAt
  cases hcell : m.get_cell p.1 p.2 with
  | none => simp
  | some cell =>
      cases himg : cell.image with
      | none =>
          cases ho : cell.is_occupied <;> cases hm : cell.is_main_cell <;>
            simp [ho, hm, himg]
      | some img =>
          cases ho : cell.is_occupied <;> cases hm : cell.is_main_cell <;>
            simp [ho, hm, himg]

/-- The collection loop rejects exactly when some scanned position is an
occupied main cell with an out-of-bounds destination. -/
theorem collect_none_iff (m : PuzzleModel) (d : MoveDir) (l : List (Int × Int))
    (items : List MoveItem) :
    l.foldl (collectStep m d) (some items) = none ↔ l.any (violatesAt m d) = true := by
  induction l generalizing items with
  | nil => simp
  | cons p tl ih =>
      rw [List.foldl_cons, List.any_cons]
      cases hstep : collectStep m d (some items) p with
      | none =>
          have hv : violatesAt m d p = true := (collectStep_none_iff m d items p).mp hstep
          rw [hv, foldl_none_absorb (collectStep m d) (fun _ => rfl) tl]
          simp
      | some items' =>
          have hv : violatesAt m d p = false := by
            cases hvb : violatesAt m d p
            · rfl
            · rw [(collectStep_none_iff m d items p).mpr hvb] at hstep
              exact absurd hstep (by simp)
          rw [hv]
          simpa using ih items'

/-- C4: if any image in the (auto-expanded) selected region has a
destination outside the grid under a one-step move in any direction, the
move handler rejects the whole operation — it reports failure and returns
the model completely unchanged (no cell, no pool); conversely a move only
reports success when every destination is in bounds. -/
theorem c4_move_rejects_out_of_bounds (m : PuzzleModel) (rect : Rect) (d : MoveDir) :
    (hasOutOfBoundsDest m (autoExpand m rect) d = true →
      moveRegion m rect d = (m, false)) ∧
    ((moveRegion m rect d).2 = true →
      hasOutOfBoundsDest m (autoExpand m rect) d = false) := by
  unfold moveRegion
  by_cases hnull : rect.isNull
  · simp [hnull]
  · rw [if_neg (by simp [hnull])]
    by_cases hpre : movePrecheckFails m (autoExpand m rect) d
    · rw [if_pos hpre]
      simp
    · rw [if_neg hpre]
      cases hcol : collectImagesToMove m (autoExpand m rect) d with
      | none =>
          constructor
          · intro _; rfl
          · intro h
            exact absurd h (by simp)
      | some items =>
          have hno : hasOutOfBoundsDest m (autoExpand m rect) d = false := by
            cases hv : hasOutOfBoundsDest m (autoExpand m rect) d
            · rfl
            · have : collectImagesToMove m (autoExpand m rect) d = none :=
                (collect_none_iff m d _ []).mpr hv
              rw [this] at hcol
              exact absurd hcol (by simp)
          constructor
          · intro h
            rw [h] at hno
            exact absurd hno (by simp)
          · intro _
            exact hno

/-- C4 witness: in a 3×1 grid fully occupied by one portrait image, moving
the selection down is out of bounds, and the handler leaves the model
unchanged and reports failure. -/
theorem c4_witness :
    moveRegion exStateC4 { left := 0, top := 0, width := 1, height := 1 } .down =
      (exStateC4, false) :=
  (c4_move_rejects_out_of_bounds exStateC4
      { left := 0, top := 0, width := 1, height := 1 } .down).1 (by decide)

/-- Membership in Python's `range(a, b)`. -/
theorem intRange_mem (a b x : Int) : x ∈ intRange a b ↔ a ≤ x ∧ x < b := by
  unfold intRange
  constructor
  · intro hx
    rcases List.mem_map.mp hx with ⟨i, hi, rfl⟩
    rw [List.mem_range] at hi
    constructor
    · have : (0 : Int) ≤ (i : Int) := Int.natCast_nonneg i
      omega
    · omega
  · rintro ⟨h1, h2⟩
    refine List.mem_map.mpr ⟨(x - a).toNat, ?_, ?_⟩
    · rw [List.mem_range]
      omega
    · omega

/-- `range(a, b)` enumerates distinct values. -/
theorem intRange_nodup (a b : Int) : (intRange a b).Nodup :=
  List.Nodup.map (fun i j h => by omega) (List.nodup_range (b - a).toNat)

/-- The row-major grid traversal is the product of the two ranges. -/
theorem gridPositions_eq (rows cols : Int) :
    gridPositions rows cols = intRange 0 rows ×ˢ intRange 0 cols := rfl

/-- Membership in the row-major grid traversal. -/
theorem gridPositions_mem (rows cols : Int) (p : Int × Int) :
    p ∈ gridPositions rows cols ↔
      0 ≤ p.1 ∧ p.1 < rows ∧ 0 ≤ p.2 ∧ p.2 < cols := by
  rw [gridPositions_eq]
  rcases p with ⟨r, c⟩
  rw [List.mem_product, intRange_mem, intRange_mem]
  tauto

/-- The row-major grid traversal has no duplicate positions. -/
theorem gridPositions_nodup (rows cols : Int) : (gridPositions rows cols).Nodup := by
  rw [gridPositions_eq]
  exact (intRange_nodup 0 rows).product (intRange_nodup 0 cols)

/-- A fold over elements the step function ignores returns its argument. -/
theorem foldl_fixed {α β : Type} (f : α → β → α) (l : List β) (a : α)
    (h : ∀ b ∈ l, ∀ x, f x b = x) : l.foldl f a = a := by
  induction l with
  | nil => rfl
  | cons hd tl ih =>
      rw [List.foldl_cons, h hd (List.mem_cons_self hd tl)]
      exact ih fun b hb x => h b (List.mem_cons_of_mem hd hb) x

/-- A fold whose step is the identity everywhere except at the single
occurrence of `b` computes just the step at `b`. -/
theorem foldl_single {α β : Type} (f : α → β → α) (l₁ l₂ : List β) (b : β) (a : α)
    (h₁ : ∀ x ∈ l₁, ∀ s, f s x = s) (h₂ : ∀ x ∈ l₂, ∀ s, f s x = s) :
    (l₁ ++ b :: l₂).foldl f a = f a b := by
  rw [List.foldl_append, foldl_fixed f l₁ a h₁, List.foldl_cons, foldl_fixed f l₂ _ h₂]

/-- A fold preserves any invariant its step preserves. -/
theorem foldl_preserve {α β : Type} (P : α → Prop) (f : α → β → α) (l : List β)
    (a : α) (ha : P a) (h : ∀ x b, P x → P (f x b)) : P (l.foldl f a) := by
  induction l generalizing a with
  | nil => exact ha
  | cons hd tl ih => exact ih (f a hd) (h a hd ha)

/-- The bounds predicate maintained along the `get_valid_area` scan. -/
def areaOrdered : Option (Int × Int × Int × Int) → Prop
  | some (a, b, c, d) => a ≤ b ∧ c ≤ d
  | none => True

/-- Each `get_valid_area` step keeps the bounding box ordered. -/
theorem validAreaStep_ordered (m : PuzzleModel) (x : Option (Int × Int × Int × Int))
    (p : Int × Int) (hx : areaOrdered x) : areaOrdered (validAreaStep m x p) := by
  unfold validAreaStep
  cases hcell : m.get_cell p.1 p.2 with
  | none => exact hx
  | some cell =>
      dsimp only
      by_cases hom : (cell.is_occupied && cell.is_main_cell) = true
      · rw [if_pos hom]
        rcases himg : cell.image with _ | img
        · rcases x with _ | ⟨a2, b2, c2, d2⟩ <;> simp_all [areaOrdered]
        · rcases horient : img.orientation <;>
            rcases x with _ | ⟨a2, b2, c2, d2⟩ <;> simp_all [areaOrdered]
      · rw [if_neg hom]
        exact hx

/-- The bounding box `get_valid_area` returns has ordered bounds. -/
theorem validArea_bounds (m : PuzzleModel) (minr maxr minc maxc : Int)
    (h : getValidArea m = some (minr, maxr, minc, maxc)) :
    minr ≤ maxr ∧ minc ≤ maxc := by
  have key : areaOrdered (getValidArea m) :=
    foldl_preserve areaOrdered (validAreaStep m) (gridPositions m.rows m.cols) none
      trivial (validAreaStep_ordered m)
  rw [h] at key
  exact key

/-- Reading a mapped list with a default, via the optional read of the
underlying list. -/
theorem getD_map {α β : Type} (l : List α) (f : α → β) (i : Nat) (d : β) :
    (l.map f).getD i d = (l[i]?.map f).getD d := by
  rw [List.getD_eq_getElem?_getD, List.getElem?_map]

/-- Reading a list after `set`: the new value exactly at an in-range set
index. -/
theorem getD_set {α : Type} (l : List α) (j : Nat) (a : α) (c : Nat) (d : α) :
    (l.set j a).getD c d = if c = j ∧ j < l.length then a else l.getD c d := by
  by_cases h : c = j ∧ j < l.length
  · rw [if_pos h, List.getD_eq_getElem?_getD, List.getElem?_set]
    obtain ⟨hcj, hlen⟩ := h
    subst hcj
    simp [hlen]
  · rw [if_neg h, List.getD_eq_getElem?_getD, List.getD_eq_getElem?_getD,
      List.getElem?_set]
    by_cases hcj : j = c
    · subst hcj
      have hlen : ¬ j < l.length := fun hl => h ⟨rfl, hl⟩
      rw [if_pos rfl, if_neg hlen, List.getElem?_eq_none (by omega)]
    · rw [if_neg hcj]

/-- Cells of a grid after `setCellAt`: the written cell exactly at an
in-range position, all other reads unchanged. -/
theorem getCell2_setCellAt (g : List (List GridCell)) (row col : Int)
    (cell : GridCell) (r c : Nat) :
    getCell2 (setCellAt g row col cell) r c =
      if r = row.toNat ∧ c = col.toNat ∧ row.toNat < g.length ∧
          col.toNat < (g.getD row.toNat []).length
      then cell else getCell2 g r c := by
  show ((setCellAt g row col cell).getD r []).getD c emptyCell = _
  unfold setCellAt
  rw [getD_set]
  by_cases hcase : r = row.toNat ∧ row.toNat < g.length
  · rw [if_pos hcase]
    obtain ⟨hr, hlen⟩ := hcase
    subst hr
    rw [getD_set]
    by_cases hc : c = col.toNat ∧ col.toNat < (g.getD row.toNat []).length
    · rw [if_pos hc, if_pos ⟨rfl, hc.1, hlen, hc.2⟩]
    · rw [if_neg hc, if_neg fun hcon => hc ⟨hcon.2.1, hcon.2.2.2⟩]
      rfl
  · rw [if_neg hcase, if_neg fun hcon => hcase ⟨hcon.1, hcon.2.2.1⟩]
    rfl

/-- Every read of the blank grid yields a fresh empty cell. -/
theorem getCell2_blankGrid (rows cols : Int) (r c : Nat) :
    getCell2 (blankGrid rows cols) r c = emptyCell := by
  show ((blankGrid rows cols).getD r []).getD c emptyCell = emptyCell
  unfold blankGrid
  rw [getD_map]
  cases h : (List.range rows.toNat)[r]? with
  | none => rfl
  | some v =>
      show ((List.range cols.toNat).map fun _ => emptyCell).getD c emptyCell = _
      rw [getD_map]
      cases h2 : (List.range cols.toNat)[c]? <;> rfl

/-- `blankGrid` has exactly the requested number of rows. -/
theorem blankGrid_length (rows cols : Int) :
    (blankGrid rows cols).length = rows.toNat := by
  unfold blankGrid
  rw [List.length_map, List.length_range]

/-- Every in-range row of `blankGrid` has the requested length. -/
theorem blankGrid_row_length (rows cols : Int) (r : Nat) (hr : r < rows.toNat) :
    ((blankGrid rows cols).getD r []).length = cols.toNat := by
  unfold blankGrid
  rw [getD_map]
  have : (List.range rows.toNat)[r]? = some r := by
    rw [List.getElem?_eq_getElem (by simpa using hr)]
    simp
  rw [this]
  simp

/-- `setCellAt` does not change the number of rows. -/
theorem setCellAt_length (g : List (List GridCell)) (row col : Int)
    (cell : GridCell) : (setCellAt g row col cell).length = g.length :=
  List.length_set g row.toNat ((g.getD row.toNat []).set col.toNat cell)

/-- `setCellAt` does not change the length of any row. -/
theorem setCellAt_row_length (g : List (List GridCell)) (row col : Int)
    (cell : GridCell) (r : Nat) :
    ((setCellAt g row col cell).getD r []).length = (g.getD r []).length := by
  unfold setCellAt
  rw [getD_set]
  by_cases hcase : r = row.toNat ∧ row.toNat < g.length
  · rw [if_pos hcase, List.length_set, hcase.1]
  · rw [if_neg hcase]

/-- `get_cell` on an in-bounds position returns the stored cell. -/
theorem get_cell_in_bounds (m : PuzzleModel) (r c : Int) (h1 : 0 ≤ r)
    (h2 : r < m.rows) (h3 : 0 ≤ c) (h4 : c < m.cols) :
    m.get_cell r c = some (cellAt m r c) := by
  unfold PuzzleModel.get_cell
  rw [if_neg (by omega)]

/-- `place_image` returns exactly the `can_place_image` verdict. -/
theorem place_image_snd (m : PuzzleModel) (r c : Int) (img : ImageInfo) :
    (m.place_image r c img).2 = m.can_place_image r c img := by
  unfold PuzzleModel.place_image
  by_cases h : m.can_place_image r c img <;> simp [h]

/-- `place_image` never changes the grid dimensions, pools aside. -/
theorem place_image_dims (m : PuzzleModel) (r c : Int) (img : ImageInfo) :
    (m.place_image r c img).1.rows = m.rows ∧
      (m.place_image r c img).1.cols = m.cols := by
  unfold PuzzleModel.place_image
  by_cases h : m.can_place_image r c img <;> simp [h]

/-- `can_place_image` for a portrait image, spelled out: anchor in bounds,
two more rows below, and all three span cells free. -/
theorem can_place_vertical_iff (m : PuzzleModel) (r c : Int) (img : ImageInfo)
    (hv : img.orientation = .vertical) :
    m.can_place_image r c img = true ↔
      0 ≤ r ∧ r < m.rows ∧ 0 ≤ c ∧ c < m.cols ∧ r + 2 < m.rows ∧
        ∀ i : Nat, i < 3 → (cellAt m (r + (i : Int)) c).is_occupied = false := by
  unfold PuzzleModel.can_place_image
  by_cases hb : r < 0 ∨ r ≥ m.rows ∨ c < 0 ∨ c ≥ m.cols
  · rw [if_pos hb]
    constructor
    · intro h
      exact absurd h (by simp)
    · rintro ⟨h1, h2, h3, h4, _, _⟩
      omega
  · rw [if_neg hb]
    rw [hv]
    by_cases h2 : r + 2 ≥ m.rows
    · rw [if_pos h2]
      constructor
      · intro h
        exact absurd h (by simp)
      · rintro ⟨_, _, _, _, h5, _⟩
        omega
    · rw [if_neg h2, List.all_eq_true]
      constructor
      · intro hall
        refine ⟨by omega, by omega, by omega, by omega, by omega, fun i hi => ?_⟩
        have := hall i (List.mem_range.mpr hi)
        simpa using this
      · rintro ⟨_, _, _, _, _, hfree⟩ i hi
        have := hfree i (List.mem_range.mp hi)
        simp [this]

/-- The grid a successful portrait placement writes: the three span cells,
bottom-up from the fold. -/
theorem place_vertical_grid (m : PuzzleModel) (r c : Int) (img : ImageInfo)
    (hv : img.orientation = .vertical)
    (hcan : m.can_place_image r c img = true) :
    (m.place_image r c img).1.grid =
      setCellAt
        (setCellAt (setCellAt m.grid (r + 0) c (verticalSpanCell img r c 0))
          (r + 1) c (verticalSpanCell img r c 1))
        (r + 2) c (verticalSpanCell img r c 2) := by
  unfold PuzzleModel.place_image
  rw [if_neg (by simp [hcan])]
  rw [hv]
  dsimp only
  rw [show List.range 3 = [0, 1, 2] from rfl]
  rw [List.foldl_cons, List.foldl_cons, List.foldl_cons, List.foldl_nil]
  norm_num

/-- Cells of a model after a successful portrait placement: exactly the
three span cells change. -/
theorem place_vertical_cellAt (m : PuzzleModel) (r c : Int) (img : ImageInfo)
    (hv : img.orientation = .vertical)
    (hcan : m.can_place_image r c img = true)
    (hsz : gridSized m) (rn cn : Nat) :
    getCell2 (m.place_image r c img).1.grid rn cn =
      if (rn : Int) = r ∧ (cn : Int) = c then verticalSpanCell img r c 0
      else if (rn : Int) = r + 1 ∧ (cn : Int) = c then verticalSpanCell img r c 1
      else if (rn : Int) = r + 2 ∧ (cn : Int) = c then verticalSpanCell img r c 2
      else getCell2 m.grid rn cn := by
  have hb := (can_place_vertical_iff m r c img hv).mp hcan
  obtain ⟨hr0, hrlt, hc0, hclt, hr2, _⟩ := hb
  obtain ⟨hlen, hrowlen⟩ := hsz
  rw [place_vertical_grid m r c img hv hcan]
  have hL0 : ((setCellAt (setCellAt m.grid (r + 0) c (verticalSpanCell img r c 0))
      (r + 1) c (verticalSpanCell img r c 1)).getD (r + 2).toNat []).length =
      m.cols.toNat := by
    rw [setCellAt_row_length, setCellAt_row_length]
    exact hrowlen _ (by omega)
  have hL1 : (setCellAt (setCellAt m.grid (r + 0) c (verticalSpanCell img r c 0))
      (r + 1) c (verticalSpanCell img r c 1)).length = m.rows.toNat := by
    rw [setCellAt_length, setCellAt_length, hlen]
  have hL2 : ((setCellAt m.grid (r + 0) c (verticalSpanCell img r c 0)).getD
      (r + 1).toNat []).length = m.cols.toNat := by
    rw [setCellAt_row_length]
    exact hrowlen _ (by omega)
  have hL3 : (setCellAt m.grid (r + 0) c (verticalSpanCell img r c 0)).length =
      m.rows.toNat := by
    rw [setCellAt_length, hlen]
  have hL4 : ((m.grid).getD (r + 0).toNat []).length = m.cols.toNat :=
    hrowlen _ (by omega)
  rw [getCell2_setCellAt, getCell2_setCellAt, getCell2_setCellAt]
  rw [hL0, hL1, hL2, hL3, hL4, hlen]
  split_ifs <;> first | rfl | omega

/-- A fresh model's grid is well-sized. -/
theorem init0_gridSized (rows cols : Int) : gridSized (PuzzleModel.init0 rows cols) :=
  ⟨blankGrid_length rows cols, fun r hr => blankGrid_row_length rows cols r hr⟩

/-- On an otherwise empty grid, the bounding box after placing one portrait
image at `(r, c)` is exactly rows `r..r+2` of column `c`. -/
theorem validArea_place_vertical (rows cols r c : Int) (img : ImageInfo)
    (hv : img.orientation = .vertical)
    (hsucc : ((PuzzleModel.init0 rows cols).place_image r c img).2 = true) :
    getValidArea ((PuzzleModel.init0 rows cols).place_image r c img).1 =
      some (r, r + 2, c, c) := by
  have hcan : (PuzzleModel.init0 rows cols).can_place_image r c img = true := by
    rw [← place_image_snd]
    exact hsucc
  obtain ⟨hr0, hrlt, hc0, hclt, hr2, _⟩ :=
    (can_place_vertical_iff (PuzzleModel.init0 rows cols) r c img hv).mp hcan
  have hdims := place_image_dims (PuzzleModel.init0 rows cols) r c img
  have hchar := place_vertical_cellAt (PuzzleModel.init0 rows cols) r c img hv hcan
    (init0_gridSized rows cols)
  have hcellAt : ∀ p : Int × Int, 0 ≤ p.1 → 0 ≤ p.2 →
      cellAt ((PuzzleModel.init0 rows cols).place_image r c img).1 p.1 p.2 =
        if p.1 = r ∧ p.2 = c then verticalSpanCell img r c 0
        else if p.1 = r + 1 ∧ p.2 = c then verticalSpanCell img r c 1
        else if p.1 = r + 2 ∧ p.2 = c then verticalSpanCell img r c 2
        else emptyCell := by
    intro p hp1 hp3
    show getCell2 ((PuzzleModel.init0 rows cols).place_image r c img).1.grid
      p.1.toNat p.2.toNat = _
    rw [hchar p.1.toNat p.2.toNat, Int.toNat_of_nonneg hp1, Int.toNat_of_nonneg hp3]
    have hblank : getCell2 (PuzzleModel.init0 rows cols).grid p.1.toNat p.2.toNat =
        emptyCell := getCell2_blankGrid rows cols p.1.toNat p.2.toNat
    rw [hblank]
  have hid : ∀ p ∈ gridPositions rows cols, p ≠ (r, c) →
      ∀ s, validAreaStep ((PuzzleModel.init0 rows cols).place_image r c img).1 s p = s := by
    intro p hp hne s
    rw [gridPositions_mem] at hp
    obtain ⟨hp1, hp2, hp3, hp4⟩ := hp
    unfold validAreaStep
    rw [get_cell_in_bounds _ p.1 p.2 hp1 (by rw [hdims.1]; exact hp2) hp3
      (by rw [hdims.2]; exact hp4)]
    rw [hcellAt p hp1 hp3]
    have hpne : ¬(p.1 = r ∧ p.2 = c) := by
      intro hcon
      exact hne (Prod.ext hcon.1 hcon.2)
    rw [if_neg hpne]
    by_cases h1 : p.1 = r + 1 ∧ p.2 = c
    · rw [if_pos h1]
      rfl
    · rw [if_neg h1]
      by_cases h2 : p.1 = r + 2 ∧ p.2 = c
      · rw [if_pos h2]
        rfl
      · rw [if_neg h2]
        rfl
  have hmem : ((r, c) : Int × Int) ∈ gridPositions rows cols := by
    rw [gridPositions_mem]
    exact ⟨hr0, hrlt, hc0, hclt⟩
  obtain ⟨l₁, l₂, hdecomp⟩ := List.append_of_mem hmem
  have hnodup := gridPositions_nodup rows cols
  rw [hdecomp, List.nodup_append] at hnodup
  have hnotin₁ : (r, c) ∉ l₁ := fun hx =>
    (List.disjoint_left.mp hnodup.2.2 hx) (List.mem_cons_self _ _)
  have hnotin₂ : (r, c) ∉ l₂ := by
    have := hnodup.2.1
    rw [List.nodup_cons] at this
    exact this.1
  have hfold : getValidArea ((PuzzleModel.init0 rows cols).place_image r c img).1 =
      validAreaStep ((PuzzleModel.init0 rows cols).place_image r c img).1 none (r, c) := by
    unfold getValidArea
    rw [hdims.1, hdims.2]
    show (gridPositions rows cols).foldl _ none = _
    rw [hdecomp]
    apply foldl_single
    · intro x hx s
      exact hid x (hdecomp ▸ List.mem_append_left _ hx)
        (fun he => hnotin₁ (he ▸ hx)) s
    · intro x hx s
      exact hid x (hdecomp ▸ List.mem_append_right _ (List.mem_cons_of_mem _ hx))
        (fun he => hnotin₂ (he ▸ hx)) s
  rw [hfold]
  unfold validAreaStep
  rw [get_cell_in_bounds _ r c hr0 (by rw [hdims.1]; exact hrlt) hc0
    (by rw [hdims.2]; exact hclt)]
  rw [hcellAt (r, c) hr0 hc0]
  rw [if_pos ⟨rfl, rfl⟩]
  dsimp only [verticalSpanCell]
  rw [hv]
  have hmax : max r (r + VERTICAL_IMAGE_SPAN - 1) = r + 2 := by
    show max r (r + 3 - 1) = r + 2
    omega
  simp [hmax]

/-- C8: the output canvas of `create_puzzle_image` covers exactly the
bounding box of occupied cells — `width = validCols×cellWidth +
(validCols−1)×spacing` and `height = validRows×cellHeight +
(validRows−1)×spacing`, the spacing term vanishing when a dimension has one
cell; and on a grid whose only placement is a single portrait image the
canvas is `cellWidth × (3×cellHeight + 2×spacing)`. -/
theorem c8_canvas_size :
    (∀ (m : PuzzleModel) (cw ch : Int) (cs : Option Int) (minr maxr minc maxc : Int),
      getValidArea m = some (minr, maxr, minc, maxc) →
      createPuzzleSize m cw ch cs =
        some ((maxc - minc + 1) * cw +
            (maxc - minc) * max (cs.getD (exporterCalculateSpacing ch)) 0,
          (maxr - minr + 1) * ch +
            (maxr - minr) * max (cs.getD (exporterCalculateSpacing ch)) 0)) ∧
    (∀ (rows cols r c cw ch : Int) (img : ImageInfo),
      img.orientation = .vertical →
      ((PuzzleModel.init0 rows cols).place_image r c img).2 = true →
      createPuzzleSize ((PuzzleModel.init0 rows cols).place_image r c img).1 cw ch
          none =
        some (cw, 3 * ch + 2 * exporterCalculateSpacing ch)) := by
  have hgen : ∀ (m : PuzzleModel) (cw ch : Int) (cs : Option Int)
      (minr maxr minc maxc : Int),
      getValidArea m = some (minr, maxr, minc, maxc) →
      createPuzzleSize m cw ch cs =
        some ((maxc - minc + 1) * cw +
            (maxc - minc) * max (cs.getD (exporterCalculateSpacing ch)) 0,
          (maxr - minr + 1) * ch +
            (maxr - minr) * max (cs.getD (exporterCalculateSpacing ch)) 0) := by
    intro m cw ch cs minr maxr minc maxc harea
    obtain ⟨hrb, hcb⟩ := validArea_bounds m minr maxr minc maxc harea
    unfold createPuzzleSize
    rw [harea]
    have hsp : (match cs with
        | some s => s
        | none => exporterCalculateSpacing ch) = cs.getD (exporterCalculateSpacing ch) := by
      cases cs <;> rfl
    dsimp only
    rw [hsp]
    by_cases hcols : maxc - minc + 1 > 1 <;> by_cases hrows : maxr - minr + 1 > 1 <;>
      [rw [if_pos hcols, if_pos hrows]; rw [if_pos hcols, if_neg hrows];
        rw [if_neg hcols, if_pos hrows]; rw [if_neg hcols, if_neg hrows]] <;>
      simp only [Option.some.injEq, Prod.mk.injEq] <;>
      constructor <;>
      first
        | ring1
        | (have h0 : maxc - minc = 0 := by omega
           rw [h0]
           ring1)
        | (have h0 : maxr - minr = 0 := by omega
           rw [h0]
           ring1)
  refine ⟨hgen, ?_⟩
  intro rows cols r c cw ch img hv hsucc
  rw [hgen _ cw ch none r (r + 2) c c
    (validArea_place_vertical rows cols r c img hv hsucc)]
  have hs1 : (1 : Int) ≤ exporterCalculateSpacing ch := le_max_right _ _
  have hmax : max ((none : Option Int).getD (exporterCalculateSpacing ch)) 0 =
      exporterCalculateSpacing ch := by
    rw [Option.getD_none]
    omega
  rw [hmax]
  simp only [Option.some.injEq, Prod.mk.injEq]
  constructor <;> ring

/-- C8 witness: placing one portrait image at `(3, 2)` on an empty 13×10
grid and composing with the 160×90 preview cell size yields a 160×284
canvas (`3×90 + 2×7`). -/
theorem c8_canvas_size_witness :
    createPuzzleSize ((PuzzleModel.init0 13 10).place_image 3 2 imgP).1 160 90 none =
      some (160, 3 * 90 + 2 * exporterCalculateSpacing 90) :=
  c8_canvas_size.2 13 10 3 2 160 90 imgP (by decide) (by decide)

/-- A successful bounds-checked read pins the coordinates inside the grid
and returns the stored cell. -/
theorem get_cell_some (m : PuzzleModel) (r c : Int) (cell : GridCell)
    (h : m.get_cell r c = some cell) :
    0 ≤ r ∧ r < m.rows ∧ 0 ≤ c ∧ c < m.cols ∧ cell = cellAt m r c := by
  unfold PuzzleModel.get_cell at h
  by_cases hb : r < 0 ∨ r ≥ m.rows ∨ c < 0 ∨ c ≥ m.cols
  · rw [if_pos hb] at h
    exact absurd h (by simp)
  · rw [if_neg hb] at h
    push_neg at hb
    exact ⟨by omega, by omega, by omega, by omega, (Option.some.injEq _ _ ▸ h).symm⟩

/-- C1: for a portrait asset, `place_image` succeeds iff `row+2 < rows` and
the three span cells `(row,col)`, `(row+1,col)`, `(row+2,col)` all exist and
are unoccupied; on success exactly the anchor gets `is_main_cell = true`,
the two cells below hold the same image with `main_position = (row,col)`,
and every other cell is untouched; when the check fails, `can_place_image`
and `place_image` both report false and the model (cells and pools) is
returned unchanged. -/
theorem c1_place_portrait (m : PuzzleModel) (row col : Int) (img : ImageInfo)
    (hsz : gridSized m) (hv : img.orientation = .vertical) :
    (m.can_place_image row col img = true ↔
      (row + 2 < m.rows ∧ ∀ i : Nat, i < 3 →
        ∃ cell, m.get_cell (row + (i : Int)) col = some cell ∧
          cell.is_occupied = false)) ∧
    (m.can_place_image row col img = true →
      ((m.place_image row col img).2 = true ∧
        (m.place_image row col img).1.get_cell row col =
          some { image := some img, is_occupied := true, is_main_cell := true,
                 main_position := none } ∧
        (m.place_image row col img).1.get_cell (row + 1) col =
          some { image := some img, is_occupied := true, is_main_cell := false,
                 main_position := some (row, col) } ∧
        (m.place_image row col img).1.get_cell (row + 2) col =
          some { image := some img, is_occupied := true, is_main_cell := false,
                 main_position := some (row, col) } ∧
        ∀ r c : Int, ¬(r = row ∧ c = col) → ¬(r = row + 1 ∧ c = col) →
          ¬(r = row + 2 ∧ c = col) →
          (m.place_image row col img).1.get_cell r c = m.get_cell r c)) ∧
    (m.can_place_image row col img = false →
      m.place_image row col img = (m, false)) := by
  have hdims := place_image_dims m row col img
  refine ⟨?_, ?_, ?_⟩
  · rw [can_place_vertical_iff m row col img hv]
    constructor
    · rintro ⟨h1, h2, h3, h4, h5, hfree⟩
      refine ⟨h5, fun i hi => ?_⟩
      refine ⟨cellAt m (row + (i : Int)) col, ?_, hfree i hi⟩
      exact get_cell_in_bounds m _ col (by omega) (by omega) h3 h4
    · rintro ⟨h5, hex⟩
      obtain ⟨cell0, hc0, hf0⟩ := hex 0 (by norm_num)
      obtain ⟨b1, b2, b3, b4, hcell0⟩ := get_cell_some m _ col cell0 hc0
      refine ⟨by omega, by omega, by omega, by omega, h5, fun i hi => ?_⟩
      obtain ⟨cell, hc, hf⟩ := hex i hi
      obtain ⟨_, _, _, _, hcelli⟩ := get_cell_some m _ col cell hc
      rw [← hcelli]
      exact hf
  · intro hcan
    obtain ⟨h1, h2, h3, h4, h5, _⟩ := (can_place_vertical_iff m row col img hv).mp hcan
    have hchar := place_vertical_cellAt m row col img hv hcan hsz
    have hcellAt : ∀ a b : Int, 0 ≤ a → 0 ≤ b →
        cellAt (m.place_image row col img).1 a b =
          if a = row ∧ b = col then verticalSpanCell img row col 0
          else if a = row + 1 ∧ b = col then verticalSpanCell img row col 1
          else if a = row + 2 ∧ b = col then verticalSpanCell img row col 2
          else cellAt m a b := by
      intro a b ha hb
      show getCell2 (m.place_image row col img).1.grid a.toNat b.toNat = _
      rw [hchar a.toNat b.toNat, Int.toNat_of_nonneg ha, Int.toNat_of_nonneg hb]
      rfl
    refine ⟨by rw [place_image_snd]; exact hcan, ?_, ?_, ?_, ?_⟩
    · rw [get_cell_in_bounds _ row col h1 (by rw [hdims.1]; omega) h3
        (by rw [hdims.2]; omega)]
      rw [hcellAt row col h1 h3, if_pos ⟨rfl, rfl⟩]
      rfl
    · rw [get_cell_in_bounds _ (row + 1) col (by omega) (by rw [hdims.1]; omega) h3
        (by rw [hdims.2]; omega)]
      rw [hcellAt (row + 1) col (by omega) h3, if_neg (by omega), if_pos ⟨rfl, rfl⟩]
      rfl
    · rw [get_cell_in_bounds _ (row + 2) col (by omega) (by rw [hdims.1]; omega) h3
        (by rw [hdims.2]; omega)]
      rw [hcellAt (row + 2) col (by omega) h3, if_neg (by omega), if_neg (by omega),
        if_pos ⟨rfl, rfl⟩]
      rfl
    · intro r c hne0 hne1 hne2
      by_cases hb : r < 0 ∨ r ≥ m.rows ∨ c < 0 ∨ c ≥ m.cols
      · have hplaced : (m.place_image row col img).1.get_cell r c = none := by
          unfold PuzzleModel.get_cell
          rw [if_pos (by rw [hdims.1, hdims.2]; exact hb)]
        have horig : m.get_cell r c = none := by
          unfold PuzzleModel.get_cell
          rw [if_pos hb]
        rw [hplaced, horig]
      · push_neg at hb
        obtain ⟨hb1, hb2, hb3, hb4⟩ := hb
        rw [get_cell_in_bounds _ r c hb1 (by rw [hdims.1]; omega) hb3
          (by rw [hdims.2]; omega)]
        rw [get_cell_in_bounds m r c hb1 (by omega) hb3 (by omega)]
        rw [hcellAt r c hb1 hb3, if_neg hne0, if_neg hne1, if_neg hne2]
  · intro hfail
    unfold PuzzleModel.place_image
    rw [if_pos (by simp [hfail])]

/-- C1 witness: scenario C of the spec — placing a portrait at `(11, 0)` in
a 13-row grid fails (`11 + 2 = 13 ≥ 13`) and mutates nothing. -/
theorem c1_place_portrait_witness :
    exStateC1.place_image 11 0 imgP = (exStateC1, false) :=
  (c1_place_portrait exStateC1 11 0 imgP (by decide) (by decide)).2.2 (by decide)

/-- One expansion step, with the conditional updates collapsed to `min` /
`max` and the trigger recorded as two comparisons. -/
theorem expandStep_eq (st : Int × Int × Bool) (e : VerticalImageEntry) :
    expandStep st e =
      (min st.1 e.row, max st.2.1 (e.row + VERTICAL_IMAGE_SPAN),
        st.2.2 || decide (e.row < st.1) ||
          decide (st.2.1 < e.row + VERTICAL_IMAGE_SPAN)) := by
  unfold expandStep
  dsimp only
  simp only [Prod.mk.injEq]
  refine ⟨?_, ?_, trivial⟩
  · by_cases h1 : e.row < st.1 <;> simp [h1] <;> omega
  · by_cases h2 : st.2.1 < e.row + VERTICAL_IMAGE_SPAN <;> simp [h2] <;> omega

/-- The running top of the expansion fold is the minimum of the initial top
and the encountered anchors. -/
theorem expandFold_top (l : List VerticalImageEntry) (t b : Int) (n : Bool) :
    (l.foldl expandStep (t, b, n)).1 = l.foldl (fun a e => min a e.row) t := by
  induction l generalizing t b n with
  | nil => rfl
  | cons e tl ih =>
      rw [List.foldl_cons, expandStep_eq, List.foldl_cons]
      exact ih _ _ _

/-- The running bottom of the expansion fold is the maximum of the initial
bottom and the encountered span ends. -/
theorem expandFold_bottom (l : List VerticalImageEntry) (t b : Int) (n : Bool) :
    (l.foldl expandStep (t, b, n)).2.1 =
      l.foldl (fun a e => max a (e.row + VERTICAL_IMAGE_SPAN)) b := by
  induction l generalizing t b n with
  | nil => rfl
  | cons e tl ih =>
      rw [List.foldl_cons, expandStep_eq, List.foldl_cons]
      exact ih _ _ _

/-- The expansion fold reports a needed expansion exactly when some entry
sticks out of the initial bounds. -/
theorem expandFold_needed (l : List VerticalImageEntry) (t b : Int) (n : Bool) :
    (l.foldl expandStep (t, b, n)).2.2 = true ↔
      (n = true ∨ ∃ e ∈ l, e.row < t ∨ b < e.row + VERTICAL_IMAGE_SPAN) := by
  induction l generalizing t b n with
  | nil => simp
  | cons e tl ih =>
      rw [List.foldl_cons, expandStep_eq, ih]
      simp only [Bool.or_eq_true, decide_eq_true_eq, List.mem_cons]
      constructor
      · rintro (hn | ⟨x, hx, hlt⟩)
        · rcases hn with (hn | h) | h
          · exact Or.inl hn
          · exact Or.inr ⟨e, Or.inl rfl, Or.inl h⟩
          · exact Or.inr ⟨e, Or.inl rfl, Or.inr h⟩
        · rcases hlt with h | h
          · by_cases he : x.row < t
            · exact Or.inr ⟨x, Or.inr hx, Or.inl he⟩
            · exact Or.inr ⟨e, Or.inl rfl, Or.inl (by omega)⟩
          · by_cases he : b < x.row + VERTICAL_IMAGE_SPAN
            · exact Or.inr ⟨x, Or.inr hx, Or.inr he⟩
            · exact Or.inr ⟨e, Or.inl rfl, Or.inr (by omega)⟩
      · rintro (hn | ⟨x, hx | hx, hlt⟩)
        · exact Or.inl (Or.inl (Or.inl hn))
        · subst hx
          rcases hlt with h | h
          · exact Or.inl (Or.inl (Or.inr h))
          · exact Or.inl (Or.inr h)
        · rcases hlt with h | h
          · by_cases he : x.row < min t e.row
            · exact Or.inr ⟨x, hx, Or.inl he⟩
            · exact Or.inl (Or.inl (Or.inr (by omega)))
          · by_cases he : max b (e.row + VERTICAL_IMAGE_SPAN) < x.row + VERTICAL_IMAGE_SPAN
            · exact Or.inr ⟨x, hx, Or.inr he⟩
            · exact Or.inl (Or.inr (by omega))

/-- A `min`-fold over elements all at least the seed returns the seed. -/
theorem foldl_min_fixed (l : List VerticalImageEntry) (t : Int)
    (h : ∀ e ∈ l, t ≤ e.row) : l.foldl (fun a e => min a e.row) t = t := by
  induction l generalizing t with
  | nil => rfl
  | cons e tl ih =>
      rw [List.foldl_cons]
      have h1 : min t e.row = t := by
        have := h e (List.mem_cons_self _ _)
        omega
      rw [h1]
      exact ih t fun x hx => h x (List.mem_cons_of_mem _ hx)

/-- A `min`-fold never exceeds its seed. -/
theorem foldl_min_le_seed (l : List VerticalImageEntry) (t : Int) :
    l.foldl (fun a e => min a e.row) t ≤ t := by
  induction l generalizing t with
  | nil => simp
  | cons e tl ih =>
      rw [List.foldl_cons]
      have := ih (min t e.row)
      omega

/-- A `min`-fold is bounded by every encountered anchor. -/
theorem foldl_min_le_mem (l : List VerticalImageEntry) (t : Int) (e : VerticalImageEntry)
    (he : e ∈ l) : l.foldl (fun a e => min a e.row) t ≤ e.row := by
  induction l generalizing t with
  | nil => cases he
  | cons x tl ih =>
      rw [List.foldl_cons]
      rcases List.mem_cons.mp he with h | h
      · subst h
        have := foldl_min_le_seed tl (min t e.row)
        omega
      · exact ih _ h

/-- A `max`-fold over span ends: at least its seed. -/
theorem foldl_max_ge_seed (l : List VerticalImageEntry) (b : Int) :
    b ≤ l.foldl (fun a e => max a (e.row + VERTICAL_IMAGE_SPAN)) b := by
  induction l generalizing b with
  | nil => simp
  | cons e tl ih =>
      rw [List.foldl_cons]
      have := ih (max b (e.row + VERTICAL_IMAGE_SPAN))
      omega

/-- A `max`-fold over span ends is at least every encountered span end. -/
theorem foldl_max_ge_mem (l : List VerticalImageEntry) (b : Int) (e : VerticalImageEntry)
    (he : e ∈ l) :
    e.row + VERTICAL_IMAGE_SPAN ≤
      l.foldl (fun a e => max a (e.row + VERTICAL_IMAGE_SPAN)) b := by
  induction l generalizing b with
  | nil => cases he
  | cons x tl ih =>
      rw [List.foldl_cons]
      rcases List.mem_cons.mp he with h | h
      · subst h
        have := foldl_max_ge_seed tl (max b (e.row + VERTICAL_IMAGE_SPAN))
        omega
      · exact ih _ h

/-- A `max`-fold over elements bounded by `c`, from a seed bounded by `c`,
stays bounded by `c`. -/
theorem foldl_max_le (l : List VerticalImageEntry) (b c : Int) (hb : b ≤ c)
    (h : ∀ e ∈ l, e.row + VERTICAL_IMAGE_SPAN ≤ c) :
    l.foldl (fun a e => max a (e.row + VERTICAL_IMAGE_SPAN)) b ≤ c := by
  induction l generalizing b with
  | nil => simpa using hb
  | cons e tl ih =>
      rw [List.foldl_cons]
      refine ih _ ?_ fun x hx => h x (List.mem_cons_of_mem _ hx)
      have := h e (List.mem_cons_self _ _)
      omega

/-- In a well-formed model, resolving any in-bounds cell that holds a
vertical image yields a main-cell row whose full 3-cell span is in bounds. -/
theorem main_cell_position_bounds (m : PuzzleModel) (row col : Int) (img : ImageInfo)
    (hwf : WF m) (hr0 : 0 ≤ row) (hr : row < m.rows) (hc0 : 0 ≤ col) (hc : col < m.cols)
    (himg : (getCell2 m.grid row.toNat col.toNat).image = some img)
    (hv : img.orientation = .vertical) :
    0 ≤ (m.get_main_cell_position row col).1 ∧
      (m.get_main_cell_position row col).1 + VERTICAL_IMAGE_SPAN ≤ m.rows := by
  obtain ⟨-, -, -, -, -, hspan, -⟩ := hwf
  have hrn : row.toNat < m.rows.toNat := by omega
  have hcn : col.toNat < m.cols.toNat := by omega
  have hcell : m.get_cell row col = some (getCell2 m.grid row.toNat col.toNat) := by
    unfold PuzzleModel.get_cell
    rw [if_neg (by omega)]
    rfl
  have hcso : cellSpanOk m.grid m.rows.toNat row.toNat col.toNat img :=
    hspan row.toNat hrn col.toNat hcn img (by simp [himg])
  unfold PuzzleModel.get_main_cell_position
  rw [hcell]
  cases hmain : (getCell2 m.grid row.toNat col.toNat).is_main_cell with
  | true =>
      obtain ⟨hval, har3, -, -⟩ := hcso.2.1 hv hmain
      rw [hval]
      dsimp only [mainCellVal]
      simp only [VERTICAL_IMAGE_SPAN]
      omega
  | false =>
      rcases hcso.2.2 hv hmain with ⟨hle, hval, hmc⟩ | ⟨hle, hval, hmc⟩
      · unfold isMainCellAt at hmc
        obtain ⟨hm1, hmm⟩ := hmc
        have hcso2 : cellSpanOk m.grid m.rows.toNat (row.toNat - 1) col.toNat img :=
          hspan _ (by omega) col.toNat hcn img (by simp [hm1])
        have har3 : row.toNat - 1 + 3 ≤ m.rows.toNat := (hcso2.2.1 hv hmm).2.1
        rw [hval]
        dsimp only [vertSubCell]
        simp only [VERTICAL_IMAGE_SPAN]
        omega
      · unfold isMainCellAt at hmc
        obtain ⟨hm1, hmm⟩ := hmc
        have hcso2 : cellSpanOk m.grid m.rows.toNat (row.toNat - 2) col.toNat img :=
          hspan _ (by omega) col.toNat hcn img (by simp [hm1])
        have har3 : row.toNat - 2 + 3 ≤ m.rows.toNat := (hcso2.2.1 hv hmm).2.1
        rw [hval]
        dsimp only [vertSubCell]
        simp only [VERTICAL_IMAGE_SPAN]
        omega

/-- In a well-formed model, every entry the region scan collects anchors a
vertical span lying fully inside the grid rows. -/
theorem vertImages_row_bounds (m : PuzzleModel) (rect : Rect) (hwf : WF m) :
    ∀ e ∈ getVerticalImagesInRegion m rect,
      0 ≤ e.row ∧ e.row + VERTICAL_IMAGE_SPAN ≤ m.rows := by
  unfold getVerticalImagesInRegion
  by_cases hn : rect.isNull = true
  · rw [if_pos hn]
    intro e he
    cases he
  · rw [if_neg hn]
    refine foldl_preserve
      (fun (acc : List VerticalImageEntry) =>
        ∀ e ∈ acc, 0 ≤ e.row ∧ e.row + VERTICAL_IMAGE_SPAN ≤ m.rows)
      _ _ _ (fun e he => absurd he (List.not_mem_nil e)) ?_
    intro acc p hP
    dsimp only
    cases hg : m.get_cell p.1 p.2 with
    | none => exact hP
    | some cell =>
        dsimp only
        cases hi : cell.image with
        | none => exact hP
        | some img =>
            dsimp only
            by_cases hb :
                (cell.is_occupied && (img.orientation == ImageOrientation.vertical))
                  = true
            · rw [if_pos hb]
              split
              · exact hP
              · intro e he
                rcases List.mem_append.mp he with h | h
                · exact hP e h
                · have he2 : e = ⟨(m.get_main_cell_position p.1 p.2).1,
                      (m.get_main_cell_position p.1 p.2).2, img⟩ :=
                    List.mem_singleton.mp h
                  subst he2
                  have hbnd : ¬(p.1 < 0 ∨ p.1 ≥ m.rows ∨ p.2 < 0 ∨ p.2 ≥ m.cols) := by
                    intro hout
                    unfold PuzzleModel.get_cell at hg
                    rw [if_pos hout] at hg
                    exact Option.noConfusion hg
                  have hcell : cell = getCell2 m.grid p.1.toNat p.2.toNat := by
                    unfold PuzzleModel.get_cell at hg
                    rw [if_neg hbnd] at hg
                    exact (Option.some.inj hg).symm
                  push_neg at hbnd
                  obtain ⟨h1, h2, h3, h4⟩ := hbnd
                  have himg2 : (getCell2 m.grid p.1.toNat p.2.toNat).image = some img := by
                    rw [← hcell]
                    exact hi
                  have hv : img.orientation = ImageOrientation.vertical := by
                    have hb2 := hb
                    rw [Bool.and_eq_true] at hb2
                    exact eq_of_beq hb2.2
                  exact main_cell_position_bounds m p.1 p.2 img hwf h1 h2 h3 h4 himg2 hv
            · rw [if_neg hb]
              exact hP

/-- `autoExpand` on a non-null selection with at least one intersecting
vertical image, with the `let`-bound state written out. -/
theorem autoExpand_eq (m : PuzzleModel) (r : Rect) (hn : ¬r.isNull = true)
    (he : ¬(getVerticalImagesInRegion m r).isEmpty = true) :
    autoExpand m r =
      (if (!((getVerticalImagesInRegion m r).foldl expandStep
          (r.top, r.qbottom, false)).2.2) = true then r
       else
        { left := r.left,
          top := max 0 ((getVerticalImagesInRegion m r).foldl expandStep
            (r.top, r.qbottom, false)).1,
          width := r.width,
          height := min m.rows ((getVerticalImagesInRegion m r).foldl expandStep
              (r.top, r.qbottom, false)).2.1 -
            max 0 ((getVerticalImagesInRegion m r).foldl expandStep
              (r.top, r.qbottom, false)).1 }) := by
  unfold autoExpand
  rw [if_neg hn, if_neg he]

/-- Any selection whose intersecting vertical images all start at or below
its top row and end at or above-bounded by its exclusive bottom row is a
fixed point of the auto-expansion. -/
theorem autoExpand_fixed (m : PuzzleModel) (r : Rect)
    (hTle : ∀ e ∈ getVerticalImagesInRegion m r, r.top ≤ e.row)
    (hBge : ∀ e ∈ getVerticalImagesInRegion m r,
      e.row + VERTICAL_IMAGE_SPAN ≤ r.top + r.height)
    (htop0 : 0 ≤ r.top) (hbot : r.top + r.height ≤ m.rows) :
    autoExpand m r = r := by
  by_cases hn : r.isNull = true
  · unfold autoExpand
    rw [if_pos hn]
  · by_cases he : (getVerticalImagesInRegion m r).isEmpty = true
    · unfold autoExpand
      rw [if_neg hn, if_pos he]
    · rw [autoExpand_eq m r hn he]
      by_cases hneed :
          ((getVerticalImagesInRegion m r).foldl expandStep
            (r.top, r.qbottom, false)).2.2 = true
      · rw [hneed]
        rw [if_neg (by decide)]
        rw [expandFold_top, expandFold_bottom]
        rw [foldl_min_fixed _ _ hTle]
        have hB2 : (getVerticalImagesInRegion m r).foldl
            (fun a e => max a (e.row + VERTICAL_IMAGE_SPAN)) r.qbottom =
            r.top + r.height := by
          have hex := (expandFold_needed (getVerticalImagesInRegion m r)
            r.top r.qbottom false).mp hneed
          rcases hex with hfalse | ⟨e, he2, hlt | hlt⟩
          · exact absurd hfalse (by decide)
          · exact absurd hlt (not_lt.mpr (hTle e he2))
          · have hge := foldl_max_ge_mem (getVerticalImagesInRegion m r) r.qbottom e he2
            have hle2 := foldl_max_le (getVerticalImagesInRegion m r) r.qbottom
              (r.top + r.height) (by unfold Rect.qbottom; omega) hBge
            have h3 := hBge e he2
            unfold Rect.qbottom at hlt
            omega
        rw [hB2]
        rw [max_eq_right htop0, min_eq_right hbot]
        have hh : r.top + r.height - r.top = r.height := by omega
        rw [hh]
      · rw [Bool.not_eq_true] at hneed
        rw [hneed]
        rw [if_pos (by decide)]

/-- C7 (amended): on a well-formed model, the auto-expansion is idempotent
on every selection for which the set of vertical images intersecting the
once-expanded region equals the set intersecting the original region (the
counterexample `c7_counterexample` shows the unconditional claim fails:
newly added rows can reach vertical images the first pass never saw). -/
theorem c7_expand_idempotent (m : PuzzleModel) (rect : Rect) (hwf : WF m)
    (hset : getVerticalImagesInRegion m (autoExpand m rect) =
      getVerticalImagesInRegion m rect) :
    autoExpand m (autoExpand m rect) = autoExpand m rect := by
  by_cases hn : rect.isNull = true
  · have h1 : autoExpand m rect = rect := by
      unfold autoExpand
      rw [if_pos hn]
    rw [h1]
    exact h1
  by_cases he : (getVerticalImagesInRegion m rect).isEmpty = true
  · have h1 : autoExpand m rect = rect := by
      unfold autoExpand
      rw [if_neg hn, if_pos he]
    rw [h1]
    exact h1
  by_cases hneed : ((getVerticalImagesInRegion m rect).foldl expandStep
      (rect.top, rect.qbottom, false)).2.2 = true
  · have h1 : autoExpand m rect =
        { left := rect.left,
          top := max 0 ((getVerticalImagesInRegion m rect).foldl
            (fun a e => min a e.row) rect.top),
          width := rect.width,
          height := min m.rows ((getVerticalImagesInRegion m rect).foldl
              (fun a e => max a (e.row + VERTICAL_IMAGE_SPAN)) rect.qbottom) -
            max 0 ((getVerticalImagesInRegion m rect).foldl
              (fun a e => min a e.row) rect.top) } := by
      rw [autoExpand_eq m rect hn he, hneed]
      rw [if_neg (by decide)]
      rw [expandFold_top, expandFold_bottom]
    set T' := max 0 ((getVerticalImagesInRegion m rect).foldl
      (fun a e => min a e.row) rect.top) with hT'
    set B' := min m.rows ((getVerticalImagesInRegion m rect).foldl
      (fun a e => max a (e.row + VERTICAL_IMAGE_SPAN)) rect.qbottom) with hB'
    have hbd := vertImages_row_bounds m rect hwf
    have hTle : ∀ e ∈ getVerticalImagesInRegion m rect, T' ≤ e.row := by
      intro e he2
      have hmin := foldl_min_le_mem (getVerticalImagesInRegion m rect) rect.top e he2
      have h0 := (hbd e he2).1
      rw [hT']
      omega
    have hBge : ∀ e ∈ getVerticalImagesInRegion m rect,
        e.row + VERTICAL_IMAGE_SPAN ≤ B' := by
      intro e he2
      have hmax := foldl_max_ge_mem (getVerticalImagesInRegion m rect)
        rect.qbottom e he2
      have h0 := (hbd e he2).2
      rw [hB']
      omega
    rw [h1] at hset ⊢
    apply autoExpand_fixed
    · rw [hset]
      intro e he2
      show T' ≤ e.row
      exact hTle e he2
    · rw [hset]
      intro e he2
      show e.row + VERTICAL_IMAGE_SPAN ≤ T' + (B' - T')
      have := hBge e he2
      omega
    · show (0 : Int) ≤ T'
      rw [hT']
      omega
    · show T' + (B' - T') ≤ m.rows
      rw [hB']
      omega
  · have h1 : autoExpand m rect = rect := by
      rw [Bool.not_eq_true] at hneed
      rw [autoExpand_eq m rect hn he, hneed]
      rw [if_pos (by decide)]
    rw [h1]
    exact h1

/-- C7 witness: on the well-formed 3×1 grid holding one portrait span, the
full-grid selection satisfies the amended hypothesis and expansion is
idempotent there. -/
theorem c7_expand_idempotent_witness :
    WF exStateC4 ∧
      getVerticalImagesInRegion exStateC4 (autoExpand exStateC4 rectC7W) =
        getVerticalImagesInRegion exStateC4 rectC7W ∧
      autoExpand exStateC4 (autoExpand exStateC4 rectC7W) =
        autoExpand exStateC4 rectC7W :=
  ⟨by decide, by decide,
    c7_expand_idempotent exStateC4 rectC7W (by decide) (by decide)⟩

/-- `WF` implies the operation-stable core `WFcore`. -/
theorem WFcore_of_WF (m : PuzzleModel) (h : WF m) : WFcore m :=
  ⟨h.1, h.2.1, h.2.2.1, h.2.2.2.1, h.2.2.2.2.1, h.2.2.2.2.2.2⟩

/-- Appending a fresh element keeps a list duplicate-free. -/
theorem nodup_append_singleton {α : Type} (l : List α) (a : α)
    (h : l.Nodup) (ha : a ∉ l) : (l ++ [a]).Nodup := by
  rw [List.nodup_append]
  exact ⟨h, List.nodup_singleton a, fun x hx hmem => ha (List.mem_singleton.mp hmem ▸ hx)⟩

/-- A failing `place_image` returns the model unchanged. -/
theorem place_image_fail (m : PuzzleModel) (r c : Int) (img : ImageInfo)
    (h : m.can_place_image r c img = false) : m.place_image r c img = (m, false) := by
  unfold PuzzleModel.place_image
  rw [if_pos (by simp [h])]

/-- `can_place_image` for a landscape image, spelled out: anchor in bounds
and the anchor cell free. -/
theorem can_place_horizontal_iff (m : PuzzleModel) (r c : Int) (img : ImageInfo)
    (hh : img.orientation = .horizontal) :
    m.can_place_image r c img = true ↔
      0 ≤ r ∧ r < m.rows ∧ 0 ≤ c ∧ c < m.cols ∧
        (cellAt m r c).is_occupied = false := by
  unfold PuzzleModel.can_place_image
  by_cases hb : r < 0 ∨ r ≥ m.rows ∨ c < 0 ∨ c ≥ m.cols
  · rw [if_pos hb]
    constructor
    · intro h
      exact absurd h (by simp)
    · rintro ⟨h1, h2, h3, h4, -⟩
      omega
  · rw [if_neg hb, hh]
    show (!(cellAt m r c).is_occupied) = true ↔ _
    constructor
    · intro h
      refine ⟨by omega, by omega, by omega, by omega, ?_⟩
      cases hocc : (cellAt m r c).is_occupied
      · rfl
      · rw [hocc] at h
        exact absurd h (by decide)
    · rintro ⟨-, -, -, -, h5⟩
      rw [h5]
      rfl

/-- The grid a successful landscape placement writes: one main cell. -/
theorem place_horizontal_grid (m : PuzzleModel) (r c : Int) (img : ImageInfo)
    (hh : img.orientation = .horizontal)
    (hcan : m.can_place_image r c img = true) :
    (m.place_image r c img).1.grid = setCellAt m.grid r c (mainCellVal img) := by
  unfold PuzzleModel.place_image
  rw [if_neg (by simp [hcan])]
  rw [hh]
  rfl

/-- Pools after a successful placement of a not-yet-used image. -/
theorem place_image_pools (m : PuzzleModel) (r c : Int) (img : ImageInfo)
    (hcan : m.can_place_image r c img = true) (hnew : img ∉ m.used_images) :
    (m.place_image r c img).1.used_images = m.used_images ++ [img] ∧
      (m.place_image r c img).1.unused_images =
        (if img ∈ m.unused_images then m.unused_images.erase img
         else m.unused_images) := by
  unfold PuzzleModel.place_image
  rw [if_neg (by simp [hcan])]
  refine ⟨?_, rfl⟩
  show (if img ∉ m.used_images then m.used_images ++ [img] else m.used_images) = _
  rw [if_pos hnew]

/-- Cells of a model after a successful landscape placement: exactly the
anchor cell changes. -/
theorem place_horizontal_cellAt (m : PuzzleModel) (r c : Int) (img : ImageInfo)
    (hh : img.orientation = .horizontal)
    (hcan : m.can_place_image r c img = true)
    (hsz : gridSized m) (rn cn : Nat) :
    getCell2 (m.place_image r c img).1.grid rn cn =
      if (rn : Int) = r ∧ (cn : Int) = c then mainCellVal img
      else getCell2 m.grid rn cn := by
  obtain ⟨hr0, hrlt, hc0, hclt, -⟩ := (can_place_horizontal_iff m r c img hh).mp hcan
  obtain ⟨hlen, hrowlen⟩ := hsz
  rw [place_horizontal_grid m r c img hh hcan]
  rw [getCell2_setCellAt, hlen]
  have hL : (m.grid.getD r.toNat []).length = m.cols.toNat := hrowlen _ (by omega)
  rw [hL]
  split_ifs <;> first | rfl | omega

/-- The grid of a successful placement stays well-sized. -/
theorem place_gridSized (m : PuzzleModel) (r c : Int) (img : ImageInfo)
    (hcan : m.can_place_image r c img = true) (hsz : gridSized m) :
    gridSized (m.place_image r c img).1 := by
  obtain ⟨hlen, hrowlen⟩ := hsz
  have hdims := place_image_dims m r c img
  cases ho : img.orientation with
  | horizontal =>
      refine ⟨?_, ?_⟩
      · rw [place_horizontal_grid m r c img ho hcan, setCellAt_length, hlen, hdims.1]
      · intro rn hrn
        rw [place_horizontal_grid m r c img ho hcan, setCellAt_row_length, hdims.2]
        rw [hdims.1] at hrn
        exact hrowlen rn hrn
  | vertical =>
      refine ⟨?_, ?_⟩
      · rw [place_vertical_grid m r c img ho hcan, setCellAt_length, setCellAt_length,
          setCellAt_length, hlen, hdims.1]
      · intro rn hrn
        rw [place_vertical_grid m r c img ho hcan, setCellAt_row_length,
          setCellAt_row_length, setCellAt_row_length, hdims.2]
        rw [hdims.1] at hrn
        exact hrowlen rn hrn

/-- Reading a cell of a grid mapped cell-wise by an empty-cell-preserving
function. -/
theorem getCell2_map (g : List (List GridCell)) (f : GridCell → GridCell)
    (hf : f emptyCell = emptyCell) (r c : Nat) :
    getCell2 (g.map fun row => row.map f) r c = f (getCell2 g r c) := by
  show ((g.map fun row => row.map f).getD r []).getD c emptyCell =
    f ((g.getD r []).getD c emptyCell)
  rw [getD_map, List.getD_eq_getElem?_getD g r]
  cases h : g[r]? with
  | none => exact hf.symm
  | some row =>
      show (row.map f).getD c emptyCell = f (row.getD c emptyCell)
      rw [getD_map, List.getD_eq_getElem?_getD row c]
      cases h2 : row[c]? with
      | none => exact hf.symm
      | some cell => rfl

/-- A cell-wise map does not change the length of any row list. -/
theorem mapGrid_row_length (g : List (List GridCell)) (f : GridCell → GridCell)
    (rn : Nat) :
    ((g.map fun row => row.map f).getD rn []).length = (g.getD rn []).length := by
  rw [getD_map, List.getD_eq_getElem?_getD g rn]
  cases h : g[rn]? with
  | none => rfl
  | some row => simp

/-- Core preservation argument for a placement-shaped update: the new model
differs from the old one only at cells that previously held no image, every
changed cell holds the placed image, the only changed main cell is the
anchor, and the pools move the placed image from unused to used. -/
theorem WFcore_place_core (m m' : PuzzleModel) (img : ImageInfo) (ar ac : Nat)
    (h : WFcore m) (hnew : img ∉ m.used_images)
    (hrows : m'.rows = m.rows) (hcols : m'.cols = m.cols)
    (hused : m'.used_images = m.used_images ++ [img])
    (hunused : m'.unused_images =
      (if img ∈ m.unused_images then m.unused_images.erase img
       else m.unused_images))
    (hsz' : gridSized m')
    (harb : ar < m.rows.toNat) (hacb : ac < m.cols.toNat)
    (hanchor : getCell2 m'.grid ar ac = mainCellVal img)
    (hchange : ∀ rn cn : Nat, rn < m.rows.toNat → cn < m.cols.toNat →
      getCell2 m'.grid rn cn = getCell2 m.grid rn cn ∨
        ((getCell2 m.grid rn cn).image = none ∧
          (getCell2 m'.grid rn cn).image = some img ∧
          (getCell2 m'.grid rn cn).is_occupied = true ∧
          ((getCell2 m'.grid rn cn).is_main_cell = true → rn = ar ∧ cn = ac))) :
    WFcore m' := by
  obtain ⟨hsz, hocc, hnodU, hnodUsed, ⟨hpa, hpb, hpc⟩, huniq⟩ := h
  refine ⟨hsz', ?_, ?_, ?_, ⟨?_, ?_, ?_⟩, ?_⟩
  · intro rn hrn cn hcn
    rw [hrows] at hrn
    rw [hcols] at hcn
    rcases hchange rn cn hrn hcn with heq | ⟨-, h2, h3, -⟩
    · rw [heq]
      exact hocc rn hrn cn hcn
    · rw [h2, h3]
      rfl
  · rw [hunused]
    by_cases hin : img ∈ m.unused_images
    · rw [if_pos hin]
      exact hnodU.erase img
    · rw [if_neg hin]
      exact hnodU
  · rw [hused]
    exact nodup_append_singleton _ _ hnodUsed hnew
  · intro x hx
    rw [hused]
    rw [hunused] at hx
    intro hmem
    rcases List.mem_append.mp hmem with hxu | hxi
    · by_cases hin : img ∈ m.unused_images
      · rw [if_pos hin] at hx
        exact hpa x (List.mem_of_mem_erase hx) hxu
      · rw [if_neg hin] at hx
        exact hpa x hx hxu
    · have hx_img : x = img := List.mem_singleton.mp hxi
      subst hx_img
      by_cases hin : x ∈ m.unused_images
      · rw [if_pos hin] at hx
        exact hnodU.not_mem_erase hx
      · rw [if_neg hin] at hx
        exact hin hx
  · intro x hx
    rw [hused] at hx
    rcases List.mem_append.mp hx with hxu | hxi
    · obtain ⟨r1, hr1, c1, hc1, hcell⟩ := hpb x hxu
      refine ⟨r1, by rw [hrows]; exact hr1, c1, by rw [hcols]; exact hc1, ?_⟩
      rcases hchange r1 c1 hr1 hc1 with heq | ⟨hnone, -, -, -⟩
      · rw [heq]
        exact hcell
      · rw [hcell] at hnone
        exact absurd hnone (by simp)
    · have hx_img : x = img := List.mem_singleton.mp hxi
      subst hx_img
      refine ⟨ar, by rw [hrows]; exact harb, ac, by rw [hcols]; exact hacb, ?_⟩
      rw [hanchor]
      rfl
  · intro rn hrn cn hcn x hx
    rw [hrows] at hrn
    rw [hcols] at hcn
    rw [hused]
    rcases hchange rn cn hrn hcn with heq | ⟨-, h2, -, -⟩
    · rw [heq] at hx
      exact List.mem_append.mpr (Or.inl (hpc rn hrn cn hcn x hx))
    · rw [h2] at hx
      have hx_img : x = img := by simpa using hx
      subst hx_img
      exact List.mem_append.mpr (Or.inr (List.mem_singleton.mpr rfl))
  · intro r1 hr1 c1 hc1 r2 hr2 c2 hc2
    rw [hrows] at hr1 hr2
    rw [hcols] at hc1 hc2
    intro x hx hmain1 himg2 hmain2
    have hx1 : (getCell2 m'.grid r1 c1).image = some x :=
      Option.mem_def.mp (Option.mem_toList.mp hx)
    rcases hchange r1 c1 hr1 hc1 with heq1 | ⟨-, h21, -, h41⟩
    · rcases hchange r2 c2 hr2 hc2 with heq2 | ⟨-, h22, -, -⟩
      · exact (huniq r1 hr1 c1 hc1 r2 hr2 c2 hc2) x (heq1 ▸ hx) (heq1 ▸ hmain1)
          (heq2 ▸ himg2) (heq2 ▸ hmain2)
      · have hximg : x = img := by
          rw [h22] at himg2
          exact (Option.some.inj himg2).symm
        subst hximg
        exfalso
        apply hnew
        apply hpc r1 hr1 c1 hc1 x
        rw [heq1] at hx
        exact hx
    · have hximg : x = img := by
        rw [h21] at hx1
        exact (Option.some.inj hx1).symm
      subst hximg
      obtain ⟨hr1a, hc1a⟩ := h41 hmain1
      rcases hchange r2 c2 hr2 hc2 with heq2 | ⟨-, -, -, h42⟩
      · exfalso
        apply hnew
        apply hpc r2 hr2 c2 hc2 x
        rw [heq2] at himg2
        rw [himg2]
        simp
      · obtain ⟨hr2a, hc2a⟩ := h42 hmain2
        exact ⟨by rw [hr1a, hr2a], by rw [hc1a, hc2a]⟩

/-- `place_image` preserves the stable core when the image is not already
placed (the side condition of the amended claim C5). -/
theorem WFcore_place (m : PuzzleModel) (row col : Int) (img : ImageInfo)
    (h : WFcore m) (hnew : img ∉ m.used_images) :
    WFcore (m.place_image row col img).1 := by
  cases hcan : m.can_place_image row col img with
  | false =>
      rw [place_image_fail m row col img hcan]
      exact h
  | true =>
      have hsz := h.1
      have hocc := h.2.1
      have hdims := place_image_dims m row col img
      have hpools := place_image_pools m row col img hcan hnew
      have hsz' := place_gridSized m row col img hcan hsz
      cases ho : img.orientation with
      | horizontal =>
          obtain ⟨hr0, hrlt, hc0, hclt, hfree⟩ :=
            (can_place_horizontal_iff m row col img ho).mp hcan
          have hchar := place_horizontal_cellAt m row col img ho hcan hsz
          refine WFcore_place_core m _ img row.toNat col.toNat h hnew
            hdims.1 hdims.2 hpools.1 hpools.2 hsz' (by omega) (by omega) ?_ ?_
          · have hcond : ((row.toNat : Int) = row ∧ ((col.toNat : Int) = col)) :=
              ⟨by omega, by omega⟩
            rw [hchar row.toNat col.toNat, if_pos hcond]
          · intro rn cn hrn hcn
            rw [hchar rn cn]
            by_cases h0 : (rn : Int) = row ∧ (cn : Int) = col
            · rw [if_pos h0]
              right
              refine ⟨?_, rfl, rfl, fun _ => ⟨by omega, by omega⟩⟩
              have hrn2 : rn = row.toNat := by omega
              have hcn2 : cn = col.toNat := by omega
              subst hrn2 hcn2
              have hfree2 : (getCell2 m.grid row.toNat col.toNat).is_occupied = false :=
                hfree
              have hoccval := hocc row.toNat (by omega) col.toNat (by omega)
              cases himg : (getCell2 m.grid row.toNat col.toNat).image with
              | none => rfl
              | some y =>
                  rw [himg, hfree2] at hoccval
                  simp at hoccval
            · rw [if_neg h0]
              left
              rfl
      | vertical =>
          obtain ⟨hr0, hrlt, hc0, hclt, hr2, hfree⟩ :=
            (can_place_vertical_iff m row col img ho).mp hcan
          have hchar := place_vertical_cellAt m row col img ho hcan hsz
          have hfree2 : ∀ i : Nat, i < 3 →
              (getCell2 m.grid (row.toNat + i) col.toNat).image = none := by
            intro i hi
            have hocci := hfree i hi
            have hocci2 : (getCell2 m.grid (row.toNat + i) col.toNat).is_occupied
                = false := by
              have heq2 : cellAt m (row + (i : Int)) col =
                  getCell2 m.grid (row.toNat + i) col.toNat := by
                show getCell2 m.grid (row + (i : Int)).toNat col.toNat = _
                have heq3 : (row + (i : Int)).toNat = row.toNat + i := by omega
                rw [heq3]
              rw [← heq2]
              exact hocci
            have hoccval := hocc (row.toNat + i) (by omega) col.toNat (by omega)
            cases himg : (getCell2 m.grid (row.toNat + i) col.toNat).image with
            | none => rfl
            | some y =>
                rw [himg, hocci2] at hoccval
                simp at hoccval
          refine WFcore_place_core m _ img row.toNat col.toNat h hnew
            hdims.1 hdims.2 hpools.1 hpools.2 hsz' (by omega) (by omega) ?_ ?_
          · have hcond : ((row.toNat : Int) = row ∧ ((col.toNat : Int) = col)) :=
              ⟨by omega, by omega⟩
            rw [hchar row.toNat col.toNat, if_pos hcond]
            rfl
          · intro rn cn hrn hcn
            rw [hchar rn cn]
            by_cases h0 : (rn : Int) = row ∧ (cn : Int) = col
            · rw [if_pos h0]
              right
              refine ⟨?_, rfl, rfl, fun _ => ⟨by omega, by omega⟩⟩
              have hrn2 : rn = row.toNat + 0 := by omega
              have hcn2 : cn = col.toNat := by omega
              subst hrn2 hcn2
              exact hfree2 0 (by omega)
            · rw [if_neg h0]
              by_cases h1 : (rn : Int) = row + 1 ∧ (cn : Int) = col
              · rw [if_pos h1]
                right
                refine ⟨?_, rfl, rfl, fun hmain => by simp [verticalSpanCell] at hmain⟩
                have hrn2 : rn = row.toNat + 1 := by omega
                have hcn2 : cn = col.toNat := by omega
                subst hrn2 hcn2
                exact hfree2 1 (by omega)
              · rw [if_neg h1]
                by_cases h2 : (rn : Int) = row + 2 ∧ (cn : Int) = col
                · rw [if_pos h2]
                  right
                  refine ⟨?_, rfl, rfl, fun hmain => by simp [verticalSpanCell] at hmain⟩
                  have hrn2 : rn = row.toNat + 2 := by omega
                  have hcn2 : cn = col.toNat := by omega
                  subst hrn2 hcn2
                  exact hfree2 2 (by omega)
                · rw [if_neg h2]
                  left
                  rfl

/-- `remove_image` on an in-bounds position, with the `let`-bound state
written out. -/
theorem remove_image_eq (m : PuzzleModel) (row col : Int)
    (hb : ¬(row < 0 ∨ row ≥ m.rows ∨ col < 0 ∨ col ≥ m.cols)) :
    m.remove_image row col =
      if (!(cellAt m row col).is_occupied) = true then (m, none)
      else
        match (cellAt m row col).image with
        | none => (m, none)
        | some image =>
            ({ m with
                grid := m.grid.map fun r =>
                  r.map fun c => if c.image = some image then emptyCell else c,
                used_images :=
                  if image ∈ m.used_images then m.used_images.erase image
                  else m.used_images,
                unused_images :=
                  if image ∉ m.unused_images then m.unused_images ++ [image]
                  else m.unused_images },
             some image) := by
  unfold PuzzleModel.remove_image
  rw [if_neg hb]

/-- Core preservation argument for a removal-shaped update: every cell is
unchanged (and did not hold the removed image) or cleared (and held it),
and the pools move the removed image from used to unused. -/
theorem WFcore_remove_core (m m' : PuzzleModel) (image : ImageInfo)
    (h : WFcore m)
    (hrows : m'.rows = m.rows) (hcols : m'.cols = m.cols)
    (hused : m'.used_images =
      (if image ∈ m.used_images then m.used_images.erase image
       else m.used_images))
    (hunused : m'.unused_images =
      (if image ∉ m.unused_images then m.unused_images ++ [image]
       else m.unused_images))
    (hsz' : gridSized m')
    (hchange : ∀ rn cn : Nat, rn < m.rows.toNat → cn < m.cols.toNat →
      (getCell2 m'.grid rn cn = getCell2 m.grid rn cn ∧
          (getCell2 m.grid rn cn).image ≠ some image) ∨
        ((getCell2 m.grid rn cn).image = some image ∧
          getCell2 m'.grid rn cn = emptyCell)) :
    WFcore m' := by
  obtain ⟨hsz, hocc, hnodU, hnodUsed, ⟨hpa, hpb, hpc⟩, huniq⟩ := h
  refine ⟨hsz', ?_, ?_, ?_, ⟨?_, ?_, ?_⟩, ?_⟩
  · intro rn hrn cn hcn
    rw [hrows] at hrn
    rw [hcols] at hcn
    rcases hchange rn cn hrn hcn with ⟨heq, -⟩ | ⟨-, hclr⟩
    · rw [heq]
      exact hocc rn hrn cn hcn
    · rw [hclr]
      rfl
  · rw [hunused]
    by_cases hin : image ∉ m.unused_images
    · rw [if_pos hin]
      exact nodup_append_singleton _ _ hnodU hin
    · rw [if_neg hin]
      exact hnodU
  · rw [hused]
    by_cases hin : image ∈ m.used_images
    · rw [if_pos hin]
      exact hnodUsed.erase image
    · rw [if_neg hin]
      exact hnodUsed
  · intro x hx
    rw [hused]
    rw [hunused] at hx
    intro hmem
    have hxused : x ∈ m.used_images := by
      by_cases hin : image ∈ m.used_images
      · rw [if_pos hin] at hmem
        exact List.mem_of_mem_erase hmem
      · rw [if_neg hin] at hmem
        exact hmem
    by_cases hin2 : image ∉ m.unused_images
    · rw [if_pos hin2] at hx
      rcases List.mem_append.mp hx with hxu | hxi
      · exact hpa x hxu hxused
      · have hx_img : x = image := List.mem_singleton.mp hxi
        subst hx_img
        by_cases hin : x ∈ m.used_images
        · rw [if_pos hin] at hmem
          exact hnodUsed.not_mem_erase hmem
        · rw [if_neg hin] at hmem
          exact hin hmem
    · rw [if_neg hin2] at hx
      exact hpa x hx hxused
  · intro x hx
    rw [hused] at hx
    have hxmem : x ∈ m.used_images ∧ x ≠ image := by
      by_cases hin : image ∈ m.used_images
      · rw [if_pos hin] at hx
        have := hnodUsed.mem_erase_iff.mp hx
        exact ⟨this.2, this.1⟩
      · rw [if_neg hin] at hx
        refine ⟨hx, ?_⟩
        intro hcon
        subst hcon
        exact hin hx
    obtain ⟨hxu, hxne⟩ := hxmem
    obtain ⟨r1, hr1, c1, hc1, hcell⟩ := hpb x hxu
    refine ⟨r1, by rw [hrows]; exact hr1, c1, by rw [hcols]; exact hc1, ?_⟩
    rcases hchange r1 c1 hr1 hc1 with ⟨heq, -⟩ | ⟨hceq, -⟩
    · rw [heq]
      exact hcell
    · rw [hcell] at hceq
      exact absurd (Option.some.inj hceq) hxne
  · intro rn hrn cn hcn x hx
    rw [hrows] at hrn
    rw [hcols] at hcn
    rw [hused]
    rcases hchange rn cn hrn hcn with ⟨heq, hne⟩ | ⟨-, hclr⟩
    · rw [heq] at hx
      have hx2 : (getCell2 m.grid rn cn).image = some x :=
        Option.mem_def.mp (Option.mem_toList.mp hx)
      have hxu : x ∈ m.used_images := hpc rn hrn cn hcn x hx
      have hxne : x ≠ image := by
        intro hcon
        subst hcon
        exact hne hx2
      by_cases hin : image ∈ m.used_images
      · rw [if_pos hin]
        exact hnodUsed.mem_erase_iff.mpr ⟨hxne, hxu⟩
      · rw [if_neg hin]
        exact hxu
    · rw [hclr] at hx
      cases hx
  · intro r1 hr1 c1 hc1 r2 hr2 c2 hc2
    rw [hrows] at hr1 hr2
    rw [hcols] at hc1 hc2
    intro x hx hmain1 himg2 hmain2
    rcases hchange r1 c1 hr1 hc1 with ⟨heq1, -⟩ | ⟨-, hclr1⟩
    · rcases hchange r2 c2 hr2 hc2 with ⟨heq2, -⟩ | ⟨-, hclr2⟩
      · exact (huniq r1 hr1 c1 hc1 r2 hr2 c2 hc2) x (heq1 ▸ hx) (heq1 ▸ hmain1)
          (heq2 ▸ himg2) (heq2 ▸ hmain2)
      · rw [hclr2] at himg2
        exact absurd himg2 (by simp [emptyCell])
    · rw [hclr1] at hx
      cases hx

/-- `remove_image` preserves the stable core. -/
theorem WFcore_remove (m : PuzzleModel) (row col : Int) (h : WFcore m) :
    WFcore (m.remove_image row col).1 := by
  by_cases hb : row < 0 ∨ row ≥ m.rows ∨ col < 0 ∨ col ≥ m.cols
  · have he : m.remove_image row col = (m, none) := by
      unfold PuzzleModel.remove_image
      rw [if_pos hb]
    rw [he]
    exact h
  · rw [remove_image_eq m row col hb]
    by_cases hoccb : (cellAt m row col).is_occupied = true
    · rw [if_neg (by simp [hoccb])]
      cases hi : (cellAt m row col).image with
      | none => exact h
      | some image =>
          have hsz := h.1
          have hget : ∀ rn cn : Nat,
              getCell2 (m.grid.map fun r =>
                r.map fun c => if c.image = some image then emptyCell else c) rn cn =
              (if (getCell2 m.grid rn cn).image = some image then emptyCell
               else getCell2 m.grid rn cn) :=
            fun rn cn => getCell2_map m.grid
              (fun c => if c.image = some image then emptyCell else c)
              (ite_self emptyCell) rn cn
          refine WFcore_remove_core m _ image h rfl rfl rfl rfl ⟨?_, ?_⟩ ?_
          · show (m.grid.map fun r =>
              r.map fun c => if c.image = some image then emptyCell else c).length
                = m.rows.toNat
            rw [List.length_map]
            exact hsz.1
          · intro rn hrn
            show ((m.grid.map fun r =>
              r.map fun c => if c.image = some image then emptyCell else c).getD
                rn []).length = m.cols.toNat
            rw [mapGrid_row_length]
            exact hsz.2 rn hrn
          · intro rn cn hrn hcn
            have hg := hget rn cn
            by_cases hcimg : (getCell2 m.grid rn cn).image = some image
            · right
              refine ⟨hcimg, ?_⟩
              show getCell2 (m.grid.map fun r =>
                r.map fun c => if c.image = some image then emptyCell else c) rn cn
                  = emptyCell
              rw [hg, if_pos hcimg]
            · left
              refine ⟨?_, hcimg⟩
              show getCell2 (m.grid.map fun r =>
                r.map fun c => if c.image = some image then emptyCell else c) rn cn
                  = getCell2 m.grid rn cn
              rw [hg, if_neg hcimg]
    · rw [Bool.not_eq_true] at hoccb
      rw [hoccb]
      rw [if_pos (show (!false) = true from rfl)]
      exact h

/-- `mainCellSel` selects exactly the image of an occupied main cell. -/
theorem mainCellSel_eq_some (cell : GridCell) (x : ImageInfo) :
    mainCellSel cell = some x ↔
      cell.image = some x ∧ cell.is_main_cell = true := by
  unfold mainCellSel
  cases hi : cell.image with
  | none => cases hm : cell.is_main_cell <;> simp
  | some img => cases hm : cell.is_main_cell <;> simp

/-- `mainCellImages` as a `flatMap` of per-row `filterMap`s over the named
selector. -/
theorem mainCellImages_eq (g : List (List GridCell)) :
    mainCellImages g = g.flatMap fun row => row.filterMap mainCellSel := rfl

/-- On a well-sized grid with unique main cells, the row-major main-cell
image list has no duplicates. -/
theorem mainCellImages_nodup (m : PuzzleModel) (hsz : gridSized m)
    (huniq : uniqueMainWF m) : (mainCellImages m.grid).Nodup := by
  obtain ⟨hlen, hrowlen⟩ := hsz
  rw [mainCellImages_eq, List.nodup_flatMap]
  constructor
  · intro row hrow
    obtain ⟨r, hr, hgr⟩ := List.mem_iff_getElem.mp hrow
    have hgr2 : m.grid.getD r [] = row := by
      rw [List.getD_eq_getElem m.grid [] hr, hgr]
    have hrl : row.length = m.cols.toNat := by
      rw [← hgr2]
      exact hrowlen r (by omega)
    have hpw : List.Pairwise (fun a b : GridCell =>
        ∀ x : ImageInfo, mainCellSel a = some x → mainCellSel b = some x → False)
        row := by
      rw [List.pairwise_iff_getElem]
      intro i j hi hj hij x hfi hfj
      obtain ⟨hi1, hi2⟩ := (mainCellSel_eq_some _ _).mp hfi
      obtain ⟨hj1, hj2⟩ := (mainCellSel_eq_some _ _).mp hfj
      have hci : getCell2 m.grid r i = row[i] := by
        show (m.grid.getD r []).getD i emptyCell = _
        rw [hgr2, List.getD_eq_getElem row emptyCell hi]
      have hcj : getCell2 m.grid r j = row[j] := by
        show (m.grid.getD r []).getD j emptyCell = _
        rw [hgr2, List.getD_eq_getElem row emptyCell hj]
      have hres := (huniq r (by omega) i (by omega) r (by omega) j (by omega)) x
        (by rw [hci, hi1]; simp) (by rw [hci]; exact hi2)
        (by rw [hcj]; exact hj1) (by rw [hcj]; exact hj2)
      omega
    have hpair : List.Pairwise (fun x y : ImageInfo => x ≠ y)
        (row.filterMap mainCellSel) := by
      refine List.Pairwise.filterMap mainCellSel ?_ hpw
      intro a a2 hR b hb b2 hb2
      intro heq
      subst heq
      exact hR b (Option.mem_def.mp hb) (Option.mem_def.mp hb2)
    exact hpair
  · rw [List.pairwise_iff_getElem]
    intro i j hi hj hij
    simp only [Function.onFun]
    rw [List.disjoint_left]
    intro x hxi hxj
    rcases List.mem_filterMap.mp hxi with ⟨a, ha, hfa⟩
    rcases List.mem_filterMap.mp hxj with ⟨b, hb, hfb⟩
    have hgdi : m.grid.getD i [] = m.grid[i] := List.getD_eq_getElem m.grid [] hi
    have hgdj : m.grid.getD j [] = m.grid[j] := List.getD_eq_getElem m.grid [] hj
    have hil : (m.grid[i]).length = m.cols.toNat := by
      rw [← hgdi]
      exact hrowlen i (by omega)
    have hjl : (m.grid[j]).length = m.cols.toNat := by
      rw [← hgdj]
      exact hrowlen j (by omega)
    obtain ⟨ci, hcilt, hcia⟩ := List.mem_iff_getElem.mp ha
    obtain ⟨cj, hcjlt, hcjb⟩ := List.mem_iff_getElem.mp hb
    have hcell_i : getCell2 m.grid i ci = a := by
      show (m.grid.getD i []).getD ci emptyCell = a
      rw [hgdi, List.getD_eq_getElem (m.grid[i]) emptyCell hcilt, hcia]
    have hcell_j : getCell2 m.grid j cj = b := by
      show (m.grid.getD j []).getD cj emptyCell = b
      rw [hgdj, List.getD_eq_getElem (m.grid[j]) emptyCell hcjlt, hcjb]
    obtain ⟨ha1, ha2⟩ := (mainCellSel_eq_some _ _).mp hfa
    obtain ⟨hb1, hb2⟩ := (mainCellSel_eq_some _ _).mp hfb
    have hres := (huniq i (by omega) ci (by omega) j (by omega) cj (by omega)) x
      (by rw [hcell_i, ha1]; simp) (by rw [hcell_i]; exact ha2)
      (by rw [hcell_j]; exact hb1) (by rw [hcell_j]; exact hb2)
    omega

/-- Every collected main-cell image is a placed image. -/
theorem mainCellImages_subset_used (m : PuzzleModel) (hsz : gridSized m)
    (hpc : ∀ r < m.rows.toNat, ∀ c < m.cols.toNat,
      ∀ img ∈ (getCell2 m.grid r c).image.toList, img ∈ m.used_images) :
    ∀ x ∈ mainCellImages m.grid, x ∈ m.used_images := by
  obtain ⟨hlen, hrowlen⟩ := hsz
  intro x hx
  rw [mainCellImages_eq] at hx
  rcases List.mem_flatMap.mp hx with ⟨row, hrow, hxrow⟩
  rcases List.mem_filterMap.mp hxrow with ⟨cell, hcell, hsel⟩
  obtain ⟨r, hr, hgr⟩ := List.mem_iff_getElem.mp hrow
  obtain ⟨c, hc, hgc⟩ := List.mem_iff_getElem.mp hcell
  obtain ⟨h1, h2⟩ := (mainCellSel_eq_some _ _).mp hsel
  have hgr2 : m.grid.getD r [] = row := by
    rw [List.getD_eq_getElem m.grid [] hr, hgr]
  have hrl : row.length = m.cols.toNat := by
    rw [← hgr2]
    exact hrowlen r (by omega)
  have hcell2 : getCell2 m.grid r c = cell := by
    show (m.grid.getD r []).getD c emptyCell = cell
    rw [hgr2, List.getD_eq_getElem row emptyCell hc, hgc]
  apply hpc r (by omega) c (by omega) x
  rw [hcell2, h1]
  simp

/-- A model with a blank well-sized grid, empty used pool and duplicate-free
unused pool satisfies the stable core. -/
theorem WFcore_blank (m2 : PuzzleModel)
    (hgrid : m2.grid = blankGrid m2.rows m2.cols)
    (hused : m2.used_images = []) (hnod : m2.unused_images.Nodup) :
    WFcore m2 := by
  refine ⟨⟨?_, ?_⟩, ?_, hnod, ?_, ⟨?_, ?_, ?_⟩, ?_⟩
  · rw [hgrid]
    exact blankGrid_length _ _
  · intro r hr
    rw [hgrid]
    exact blankGrid_row_length _ _ r hr
  · intro rn hrn cn hcn
    rw [hgrid, getCell2_blankGrid]
    rfl
  · rw [hused]
    exact List.nodup_nil
  · intro x hx
    rw [hused]
    exact List.not_mem_nil x
  · intro x hx
    rw [hused] at hx
    exact absurd hx (List.not_mem_nil x)
  · intro rn hrn cn hcn x hx
    rw [hgrid, getCell2_blankGrid] at hx
    exact absurd hx (by simp [emptyCell])
  · intro r1 hr1 c1 hc1 r2 hr2 c2 hc2
    intro x hx hm1 hi2 hm2
    rw [hgrid, getCell2_blankGrid] at hx
    exact absurd hx (by simp [emptyCell])

/-- `resize_grid` preserves the stable core. -/
theorem WFcore_resize (m : PuzzleModel) (rows cols : Int) (h : WFcore m) :
    WFcore (m.resize_grid rows cols) := by
  obtain ⟨hsz, -, hnodU, -, ⟨hpa, -, hpc⟩, huniq⟩ := h
  have hre : m.resize_grid rows cols =
      { rows := rows, cols := cols, grid := blankGrid rows cols,
        used_images := [],
        unused_images := m.unused_images ++ mainCellImages m.grid,
        image_directory := m.image_directory } := by
    unfold PuzzleModel.resize_grid
    rw [foldl_mainImages]
    simp
  refine WFcore_blank _ ?_ ?_ ?_
  · rw [hre]
  · rw [hre]
  · rw [hre]
    show (m.unused_images ++ mainCellImages m.grid).Nodup
    rw [List.nodup_append]
    exact ⟨hnodU, mainCellImages_nodup m hsz huniq,
      fun a ha ha2 => hpa a ha (mainCellImages_subset_used m hsz hpc a ha2)⟩

/-- The stable core holds along every allowed operation sequence. -/
theorem WFcore_applyOps (m : PuzzleModel) (ops : List ModelOp) (h : WFcore m)
    (hok : opsAllowed m ops = true) : WFcore (applyOps m ops) := by
  induction ops generalizing m with
  | nil => exact h
  | cons op rest ih =>
      rw [show applyOps m (op :: rest) = applyOps (applyOp m op) rest from rfl]
      have hok2 := hok
      rw [show opsAllowed m (op :: rest) =
        (opAllowed m op && opsAllowed (applyOp m op) rest) from rfl] at hok2
      rw [Bool.and_eq_true] at hok2
      refine ih (applyOp m op) ?_ hok2.2
      cases op with
      | place row col img =>
          have hnew : img ∉ m.used_images := by
            have hd : decide (img ∉ m.used_images) = true := hok2.1
            exact of_decide_eq_true hd
          exact WFcore_place m row col img h hnew
      | remove row col => exact WFcore_remove m row col h
      | resize rows cols => exact WFcore_resize m rows cols h

/-- C5 (amended): starting from a well-formed state, every sequence of
`place_image`, `remove_image` and `resize_grid` operations in which
`place_image` is only invoked on images not currently in `used_images`
preserves the pool invariant: the two pools are disjoint and an image is in
`used_images` exactly when it occupies at least one grid cell (the
counterexample `c5_counterexample` shows the unrestricted claim fails). -/
theorem c5_invariant_preserved (m : PuzzleModel) (ops : List ModelOp)
    (hwf : WF m) (hok : opsAllowed m ops = true) :
    poolInvariant (applyOps m ops) :=
  (WFcore_applyOps m ops (WFcore_of_WF m hwf) hok).2.2.2.2.1

/-- C5 witness: on the 1×2 state with one available landscape image, the
allowed sequence place–remove–resize keeps the pool invariant. -/
theorem c5_invariant_witness :
    WF exStateC5 ∧ opsAllowed exStateC5 opsC5W = true ∧
      poolInvariant (applyOps exStateC5 opsC5W) :=
  ⟨by decide, by decide,
    c5_invariant_preserved exStateC5 opsC5W (by decide) (by decide)⟩

end PicPuzzle
